import Mathlib

/-!
# go-cactus: canonical request strings, content hashes and request assembly

A shallow embedding of the request-authentication code of `go-cactus`
(`cactus/converter.go`, `cactus/client.go`, `model/const.go`) and of its
retrying transport (`httpclient/client.go`), together with the parts of the Go
standard library and of `github.com/cenkalti/backoff/v4` that decide their
behaviour (`strings`, `net/url`, `sort`, `crypto/sha256`, `encoding/base64`,
`encoding/asn1`, `net/http` headers, the retry loop of `backoff`).

Conventions of the embedding

* A Go `string` is a byte sequence: `GoString = List Nat`, every element below
  256.  Go source literals are UTF-8, `str` turns a Lean literal into its bytes.
* A Go `[]byte` that may be `nil` is `Option GoString` (`none` is the nil slice).
* A Go result pair `(string, error)` is a Lean pair `GoString × Option Error`
  (`none` is the nil error), so that the value returned next to an error is
  visible.  Library functions that return the zero value next to an error are
  `Except Error _`.
* What a call takes from outside the program (the date, the nonce, the result
  of `ecdsa.Sign`, the outcome of every physical HTTP attempt, the clock and the
  randomized intervals of the backoff) is an explicit input, `cactus.Env` and
  `httpclient.World`; what a call does is returned as a list of events.
* The constants of `model/const.go` are deployment placeholders (all empty in
  the repository).  They are collected in a `model.Config` record that the
  functions take as their first argument; `model.defaults` holds the values
  of the source.
-/

namespace GoCactus

/-! ## Byte strings -/

/-- A Go `string`: a finite sequence of bytes. -/
abbrev GoString := List Nat

/-- UTF-8 encoding of one code point, as a list of bytes. -/
def utf8EncodeNat (n : Nat) : List Nat :=
  if n < 0x80 then [n]
  else if n < 0x800 then [0xC0 + n / 64, 0x80 + n % 64]
  else if n < 0x10000 then [0xE0 + n / 4096, 0x80 + n / 64 % 64, 0x80 + n % 64]
  else [0xF0 + n / 262144, 0x80 + n / 4096 % 64, 0x80 + n / 64 % 64, 0x80 + n % 64]

/-- The bytes of a list of characters (UTF-8). -/
def strChars : List Char → GoString
  | [] => []
  | c :: cs => utf8EncodeNat c.toNat ++ strChars cs

/-- The bytes of a source literal. -/
def str (s : String) : GoString := strChars s.toList

/-- Go's `<` on strings: byte-wise lexicographic comparison, a proper prefix is smaller. -/
def strLess : GoString → GoString → Bool
  | [], [] => false
  | [], _ :: _ => true
  | _ :: _, [] => false
  | a :: as, b :: bs => decide (a < b) || (decide (a = b) && strLess as bs)

/-- Go's `<=` on strings, as a relation: `b` is not smaller than `a`. -/
def strLe (a b : GoString) : Prop := strLess b a = false

instance strLe.decidable : DecidableRel strLe := fun a b => by
  unfold strLe; exact inferInstance

/-! ## Errors -/

/-- Go `error` values produced by the modelled code. -/
inductive Error where
  /-- Result of `errors.New(text)`. -/
  | new (text : String)
  /-- Result of `fmt.Errorf(format, args...)`, format and arguments kept apart. -/
  | errorf (format : String) (args : List GoString)
  /-- Value `url.EscapeError(s)`. -/
  | EscapeError (s : GoString)
  /-- Value `url.InvalidHostError(s)`. -/
  | InvalidHostError (s : GoString)
  /-- Value `&url.Error{Op, URL, Err}`. -/
  | urlError (op : String) (url : GoString) (err : Error)
  /-- An error reported by the transport or by reading a response body. -/
  | transport (text : GoString)
  deriving DecidableEq, Repr

deriving instance DecidableEq for Except

/-! ## Package `strings` -/

namespace strings

/-- `strings.Cut(s, sep)` for a one-byte separator: the text before the first
`sep`, the text after it, and whether `sep` was found (else `s, "", false`). -/
def Cut (s : GoString) (sep : Nat) : GoString × GoString × Bool :=
  match s with
  | [] => ([], [], false)
  | c :: cs =>
    if c = sep then ([], cs, true)
    else
      let r := Cut cs sep
      (c :: r.1, r.2.1, r.2.2)

/-- `strings.HasPrefix(s, p)`. -/
def HasPrefix (s p : GoString) : Bool := p.isPrefixOf s

/-- `strings.HasSuffix(s, p)`. -/
def HasSuffix (s p : GoString) : Bool := p.isSuffixOf s

/-- `strings.Count(s, sep)` for a one-byte separator. -/
def Count (s : GoString) (sep : Nat) : Nat := s.count sep

/-- `strings.Contains(s, sep)` for a one-byte `sep`. -/
def Contains (s : GoString) (sep : Nat) : Bool := s.contains sep

/-- `strings.Index(s, sub)`: position of the first occurrence, `none` for -1. -/
def Index (s sub : GoString) : Option Nat :=
  match s with
  | [] => if sub = [] then some 0 else none
  | c :: cs =>
    if sub.isPrefixOf (c :: cs) then some 0
    else (Index cs sub).map (· + 1)

/-- `strings.LastIndex(s, sep)` for a one-byte separator, `none` for -1. -/
def LastIndex (s : GoString) (sep : Nat) : Option Nat :=
  match s with
  | [] => none
  | c :: cs =>
    match LastIndex cs sep with
    | some i => some (i + 1)
    | none => if c = sep then some 0 else none

/-- `strings.Join(elems, sep)`. -/
def Join (elems : List GoString) (sep : GoString) : GoString :=
  match elems with
  | [] => []
  | [e] => e
  | e :: es => e ++ sep ++ Join es sep

/-- `strings.ToLower` on ASCII text. -/
def ToLower (s : GoString) : GoString :=
  s.map (fun c => if 65 ≤ c ∧ c ≤ 90 then c + 32 else c)

/-- The segments of `s` between occurrences of the byte `sep`
(`strings.Split` for a one-byte separator). -/
def Split (s : GoString) (sep : Nat) : List GoString :=
  match s with
  | [] => [[]]
  | c :: cs =>
    if c = sep then [] :: Split cs sep
    else
      match Split cs sep with
      | [] => [[c]]
      | seg :: segs => (c :: seg) :: segs

end strings

/-! ## Package `sort` -/

namespace sort

/-- `sort.Strings(x)`: `x` sorted in increasing order.  On strings two elements
that compare equal are identical, so the result does not depend on the sorting
algorithm (see `sort.Strings_unique`); insertion sort stands for it. -/
def Strings (x : List GoString) : List GoString := x.insertionSort strLe

end sort

/-! ## Package `net/url` -/

namespace url

/-- The escaping modes of `net/url`. -/
inductive encoding where
  | encodePath
  | encodePathSegment
  | encodeHost
  | encodeZone
  | encodeUserPassword
  | encodeQueryComponent
  | encodeFragment
  deriving DecidableEq, Repr

open encoding

/-- `ishex(c)`: `c` is a hexadecimal digit. -/
def ishex (c : Nat) : Bool :=
  (48 ≤ c && c ≤ 57) || (97 ≤ c && c ≤ 102) || (65 ≤ c && c ≤ 70)

/-- `unhex(c)`: value of a hexadecimal digit (0 for any other byte). -/
def unhex (c : Nat) : Nat :=
  if 48 ≤ c ∧ c ≤ 57 then c - 48
  else if 97 ≤ c ∧ c ≤ 102 then c - 97 + 10
  else if 65 ≤ c ∧ c ≤ 70 then c - 65 + 10
  else 0

/-- `shouldEscape(c, mode)`: whether byte `c` must be escaped in `mode`. -/
def shouldEscape (c : Nat) (mode : encoding) : Bool :=
  -- unreserved characters (alphanum)
  if (97 ≤ c ∧ c ≤ 122) ∨ (65 ≤ c ∧ c ≤ 90) ∨ (48 ≤ c ∧ c ≤ 57) then false
  -- host: ! $ & ' ( ) * + , ; = : [ ] < > "
  else if (mode = encodeHost ∨ mode = encodeZone) ∧
      c ∈ [33, 36, 38, 39, 40, 41, 42, 43, 44, 59, 61, 58, 91, 93, 60, 62, 34] then false
  -- unreserved marks: - _ . ~
  else if c ∈ [45, 95, 46, 126] then false
  -- reserved: $ & + , / : ; = ? @
  else if c ∈ [36, 38, 43, 44, 47, 58, 59, 61, 63, 64] then
    match mode with
    | encodePath => c = 63
    | encodePathSegment => c = 47 ∨ c = 59 ∨ c = 44 ∨ c = 63
    | encodeUserPassword => c = 64 ∨ c = 47 ∨ c = 63 ∨ c = 58
    | encodeQueryComponent => true
    | encodeFragment => false
    -- host and zone fall through to the end of the function
    | _ => true
  -- fragment: ! ( ) *
  else if mode = encodeFragment ∧ c ∈ [33, 40, 41, 42] then false
  else true

/-- First loop of `unescape(s, mode)`: checks that every `%` starts a
well-formed escape and that host text has no forbidden byte; `none` when the
text is acceptable. -/
def unescapeCheck (mode : encoding) : GoString → Option Error
  | [] => none
  | c :: rest =>
    if c = 37 then
      match rest with
      | a :: b :: rest2 =>
        if !ishex a || !ishex b then some (Error.EscapeError ((c :: rest).take 3))
        else if mode = encodeHost ∧ unhex a < 8 ∧ [c, a, b] ≠ [37, 50, 53] then
          some (Error.EscapeError [c, a, b])
        else if mode = encodeZone ∧ [c, a, b] ≠ [37, 50, 53] ∧
            (unhex a <<< 4 ||| unhex b) ≠ 32 ∧
            shouldEscape (unhex a <<< 4 ||| unhex b) encodeHost then
          some (Error.EscapeError [c, a, b])
        else unescapeCheck mode rest2
      | _ => some (Error.EscapeError ((c :: rest).take 3))
    else if c = 43 then unescapeCheck mode rest
    else if (mode = encodeHost ∨ mode = encodeZone) ∧ c < 0x80 ∧ shouldEscape c encodeHost then
      some (Error.InvalidHostError [c])
    else unescapeCheck mode rest

/-- Second loop of `unescape(s, mode)`: replaces every `%XX` by its byte and, in
query-component mode, `+` by a space.  (Text without `%` and without a
convertible `+` is returned as it is, which is what this loop computes too.) -/
def unescapeDecode (mode : encoding) : GoString → GoString
  | [] => []
  | c :: rest =>
    if c = 37 then
      match rest with
      | a :: b :: rest2 => (unhex a <<< 4 ||| unhex b) :: unescapeDecode mode rest2
      | _ => []
    else if c = 43 then
      (if mode = encodeQueryComponent then 32 else 43) :: unescapeDecode mode rest
    else c :: unescapeDecode mode rest

/-- `unescape(s, mode)`. -/
def unescape (s : GoString) (mode : encoding) : Except Error GoString :=
  match unescapeCheck mode s with
  | some err => .error err
  | none => .ok (unescapeDecode mode s)

/-- `url.QueryUnescape(s)`. -/
def QueryUnescape (s : GoString) : Except Error GoString :=
  unescape s encodeQueryComponent

/-- `url.Values`, a `map[string][]string`: an association list without
repeated keys, in order of first insertion. -/
abbrev Values := List (GoString × List GoString)

namespace Values

/-- `m[key]`: the values stored under `key`, empty when the key is absent. -/
def get (m : Values) (key : GoString) : List GoString :=
  match m with
  | [] => []
  | (k, vs) :: rest => if k = key then vs else get rest key

/-- `m[key] = append(m[key], value)`. -/
def add (m : Values) (key value : GoString) : Values :=
  match m with
  | [] => [(key, [value])]
  | (k, vs) :: rest =>
    if k = key then (k, vs ++ [value]) :: rest
    else (k, vs) :: add rest key value

/-- The keys of the map, in the order in which this model stores them.  Go
visits them in an unspecified order. -/
def keys (m : Values) : List GoString := m.map Prod.fst

end Values

/-- One iteration of the loop of `parseQuery`, for the segment `key` cut off
at the next `&`. -/
def parseQueryStep (acc : Values × Option Error) (key : GoString) : Values × Option Error :=
  if strings.Contains key 59 then
    (acc.1, some (Error.errorf "invalid semicolon separator in query" []))
  else if key = [] then acc
  else
    let kv := strings.Cut key 61
    match QueryUnescape kv.1 with
    | .error err1 => (acc.1, if acc.2 = none then some err1 else acc.2)
    | .ok k =>
      match QueryUnescape kv.2.1 with
      | .error err1 => (acc.1, if acc.2 = none then some err1 else acc.2)
      | .ok v => (acc.1.add k v, acc.2)

/-- `parseQuery(m, query)`: the loop cuts `query` at each `&` and visits the
segments from left to right. -/
def parseQuery (m : Values) (query : GoString) : Values × Option Error :=
  (strings.Split query 38).foldl parseQueryStep (m, none)

/-- `url.ParseQuery(query)`. -/
def ParseQuery (query : GoString) : Values × Option Error :=
  parseQuery [] query

/-- `url.Userinfo`: a user name and an optional password. -/
structure Userinfo where
  username : GoString
  password : Option GoString
  deriving DecidableEq, Repr

/-- `url.URL`, the fields that `Parse` fills and the program can read.
(`RawPath`, `RawFragment`, `ForceQuery` and `OmitHost` only steer the
printing of a URL and are left out.) -/
structure URL where
  Scheme : GoString := []
  Opaque : GoString := []
  User : Option Userinfo := none
  Host : GoString := []
  Path : GoString := []
  RawQuery : GoString := []
  Fragment : GoString := []
  deriving DecidableEq, Repr

/-- `u.Query()`: parses `RawQuery` and drops the error of `ParseQuery`. -/
def URL.Query (u : URL) : Values := (ParseQuery u.RawQuery).1

/-- `stringContainsCTLByte(s)`. -/
def stringContainsCTLByte (s : GoString) : Bool := s.any (fun b => b < 32 || b = 0x7f)

/-- Loop of `getScheme(rawURL)`, at position `i` with `rest` still to read:
`none` when no scheme is present, `some (Except.error _)` for a leading colon,
`some (Except.ok i)` when the scheme ends before position `i`. -/
def getSchemeLoop (i : Nat) : GoString → Option (Except Error Nat)
  | [] => none
  | c :: rest =>
    if (97 ≤ c ∧ c ≤ 122) ∨ (65 ≤ c ∧ c ≤ 90) then getSchemeLoop (i + 1) rest
    else if (48 ≤ c ∧ c ≤ 57) ∨ c = 43 ∨ c = 45 ∨ c = 46 then
      if i = 0 then none else getSchemeLoop (i + 1) rest
    else if c = 58 then
      if i = 0 then some (.error (Error.new "missing protocol scheme")) else some (.ok i)
    else none

/-- `getScheme(rawURL)`: the scheme and the rest of the text. -/
def getScheme (rawURL : GoString) : Except Error (GoString × GoString) :=
  match getSchemeLoop 0 rawURL with
  | none => .ok ([], rawURL)
  | some (.error err) => .error err
  | some (.ok i) => .ok (rawURL.take i, rawURL.drop (i + 1))

/-- `validOptionalPort(port)`: empty, or a colon followed by digits. -/
def validOptionalPort (port : GoString) : Bool :=
  match port with
  | [] => true
  | c :: digits => c = 58 && digits.all (fun b => 48 ≤ b && b ≤ 57)

/-- `validUserinfo(s)`. -/
def validUserinfo (s : GoString) : Bool :=
  s.all (fun r =>
    (65 ≤ r && r ≤ 90) || (97 ≤ r && r ≤ 122) || (48 ≤ r && r ≤ 57) ||
    -- - . _ : ~ ! $ & ' ( ) * + , ; = % @
    [45, 46, 95, 58, 126, 33, 36, 38, 39, 40, 41, 42, 43, 44, 59, 61, 37, 64].contains r)

/-- `parseHost(host)`. -/
def parseHost (host : GoString) : Except Error GoString :=
  if strings.HasPrefix host [91] then
    -- an IP literal, "[...]" with an optional port
    match strings.LastIndex host 93 with
    | none => .error (Error.new "missing ']' in host")
    | some i =>
      let colonPort := host.drop (i + 1)
      if !validOptionalPort colonPort then
        .error (Error.errorf "invalid port %q after host" [colonPort])
      else
        match strings.Index (host.take i) [37, 50, 53] with
        | some zone => do
          let host1 ← unescape (host.take zone) encodeHost
          let host2 ← unescape ((host.take i).drop zone) encodeZone
          let host3 ← unescape (host.drop i) encodeHost
          pure (host1 ++ host2 ++ host3)
        | none => unescape host encodeHost
  else
    match strings.LastIndex host 58 with
    | some i =>
      let colonPort := host.drop i
      if !validOptionalPort colonPort then
        .error (Error.errorf "invalid port %q after host" [colonPort])
      else unescape host encodeHost
    | none => unescape host encodeHost

/-- `parseAuthority(authority)`: user information and host. -/
def parseAuthority (authority : GoString) : Except Error (Option Userinfo × GoString) :=
  match strings.LastIndex authority 64 with
  | none => do
    let host ← parseHost authority
    pure (none, host)
  | some i => do
    let host ← parseHost (authority.drop (i + 1))
    let userinfo := authority.take i
    if !validUserinfo userinfo then
      throw (Error.new "net/url: invalid userinfo")
    else if !strings.Contains userinfo 58 then
      let username ← unescape userinfo encodeUserPassword
      pure (some ⟨username, none⟩, host)
    else
      let up := strings.Cut userinfo 58
      let username ← unescape up.1 encodeUserPassword
      let password ← unescape up.2.1 encodeUserPassword
      pure (some ⟨username, some password⟩, host)

/-- `parse(rawURL, viaRequest)` with `viaRequest = false`, the call made by
`url.Parse`. -/
def parse (rawURL : GoString) : Except Error URL :=
  if stringContainsCTLByte rawURL then
    .error (Error.new "net/url: invalid control character in URL")
  else if rawURL = [42] then .ok { Path := [42] }
  else
    match getScheme rawURL with
    | .error err => .error err
    | .ok (scheme0, rest0) =>
      let scheme := strings.ToLower scheme0
      -- a lone trailing "?" forces an empty query, else cut at the first "?"
      let cut : GoString × GoString :=
        if strings.HasSuffix rest0 [63] && strings.Count rest0 63 = 1 then (rest0.dropLast, [])
        else ((strings.Cut rest0 63).1, (strings.Cut rest0 63).2.1)
      let rest := cut.1
      let rawQuery := cut.2
      if !strings.HasPrefix rest [47] ∧ scheme ≠ [] then
        -- rootless paths are opaque
        .ok { Scheme := scheme, RawQuery := rawQuery, Opaque := rest }
      else if !strings.HasPrefix rest [47] ∧ strings.Contains (strings.Cut rest 47).1 58 then
        .error (Error.new "first path segment in URL cannot contain colon")
      else if (scheme ≠ [] ∨ !strings.HasPrefix rest [47, 47, 47]) ∧
          strings.HasPrefix rest [47, 47] then
        let auth0 := rest.drop 2
        let c := strings.Cut auth0 47
        let authority := c.1
        let rest2 : GoString := if c.2.2 then 47 :: c.2.1 else []
        match parseAuthority authority with
        | .error err => .error err
        | .ok (user, host) =>
          match unescape rest2 encodePath with
          | .error err => .error err
          | .ok path =>
            .ok { Scheme := scheme, RawQuery := rawQuery, User := user, Host := host, Path := path }
      else
        match unescape rest encodePath with
        | .error err => .error err
        | .ok path => .ok { Scheme := scheme, RawQuery := rawQuery, Path := path }

/-- `url.Parse(rawURL)`. -/
def Parse (rawURL : GoString) : Except Error URL :=
  let c := strings.Cut rawURL 35
  let u := c.1
  let frag := c.2.1
  match parse u with
  | .error err => .error (Error.urlError "parse" u err)
  | .ok url =>
    if frag = [] then .ok url
    else
      match unescape frag encodeFragment with
      | .error err => .error (Error.urlError "parse" rawURL err)
      | .ok f => .ok { url with Fragment := f }

end url

/-! ## Package `crypto/sha256` -/

namespace sha256

/-- The round constants `_K`. -/
def K : List Nat :=
  [0x428A2F98, 0x71374491, 0xB5C0FBCF, 0xE9B5DBA5, 0x3956C25B, 0x59F111F1, 0x923F82A4, 0xAB1C5ED5,
   0xD807AA98, 0x12835B01, 0x243185BE, 0x550C7DC3, 0x72BE5D74, 0x80DEB1FE, 0x9BDC06A7, 0xC19BF174,
   0xE49B69C1, 0xEFBE4786, 0x0FC19DC6, 0x240CA1CC, 0x2DE92C6F, 0x4A7484AA, 0x5CB0A9DC, 0x76F988DA,
   0x983E5152, 0xA831C66D, 0xB00327C8, 0xBF597FC7, 0xC6E00BF3, 0xD5A79147, 0x06CA6351, 0x14292967,
   0x27B70A85, 0x2E1B2138, 0x4D2C6DFC, 0x53380D13, 0x650A7354, 0x766A0ABB, 0x81C2C92E, 0x92722C85,
   0xA2BFE8A1, 0xA81A664B, 0xC24B8B70, 0xC76C51A3, 0xD192E819, 0xD6990624, 0xF40E3585, 0x106AA070,
   0x19A4C116, 0x1E376C08, 0x2748774C, 0x34B0BCB5, 0x391C0CB3, 0x4ED8AA4A, 0x5B9CCA4F, 0x682E6FF3,
   0x748F82EE, 0x78A5636F, 0x84C87814, 0x8CC70208, 0x90BEFFFA, 0xA4506CEB, 0xBEF9A3F7, 0xC67178F2]

/-- The eight 32-bit words of the running hash. -/
structure Digest where
  h0 : Nat
  h1 : Nat
  h2 : Nat
  h3 : Nat
  h4 : Nat
  h5 : Nat
  h6 : Nat
  h7 : Nat
  deriving DecidableEq, Repr

/-- The initial hash value. -/
def init : Digest :=
  ⟨0x6A09E667, 0xBB67AE85, 0x3C6EF372, 0xA54FF53A, 0x510E527F, 0x9B05688C, 0x1F83D9AB, 0x5BE0CD19⟩

/-- Addition of `uint32` values. -/
def add32 (a b : Nat) : Nat := (a + b) % 2 ^ 32

/-- `bits.RotateLeft32(x, -n)`: rotation of a 32-bit word to the right. -/
def rotr (x n : Nat) : Nat := ((x >>> n) ||| (x <<< (32 - n))) % 2 ^ 32

/-- The big-endian 32-bit word at the head of `p`. -/
def word (p : List Nat) : Nat :=
  (p.getD 0 0 <<< 24) ||| (p.getD 1 0 <<< 16) ||| (p.getD 2 0 <<< 8) ||| p.getD 3 0

/-- The first sixteen words of the message schedule: the words of the block. -/
def blockWords : Nat → List Nat → List Nat
  | 0, _ => []
  | n + 1, p => word p :: blockWords n (p.drop 4)

/-- Extends the message schedule by `n` words; `w` holds the words so far,
newest first. -/
def schedule : Nat → List Nat → List Nat
  | 0, w => w
  | n + 1, w =>
    let v1 := w.getD 1 0
    let t1 := rotr v1 17 ^^^ rotr v1 19 ^^^ (v1 >>> 10)
    let v2 := w.getD 14 0
    let t2 := rotr v2 7 ^^^ rotr v2 18 ^^^ (v2 >>> 3)
    schedule n (add32 (add32 (add32 t1 (w.getD 6 0)) t2) (w.getD 15 0) :: w)

/-- One round of the compression function, with constant `k` and schedule word `w`. -/
def round (s : Digest) (k w : Nat) : Digest :=
  let t1 := add32 (add32 (add32 (add32 s.h7 (rotr s.h4 6 ^^^ rotr s.h4 11 ^^^ rotr s.h4 25))
    ((s.h4 &&& s.h5) ^^^ ((s.h4 ^^^ 0xffffffff) &&& s.h6))) k) w
  let t2 := add32 (rotr s.h0 2 ^^^ rotr s.h0 13 ^^^ rotr s.h0 22)
    ((s.h0 &&& s.h1) ^^^ (s.h0 &&& s.h2) ^^^ (s.h1 &&& s.h2))
  ⟨add32 t1 t2, s.h0, s.h1, s.h2, add32 s.h3 t1, s.h4, s.h5, s.h6⟩

/-- The sixty-four rounds over the constants and the schedule. -/
def rounds : Digest → List Nat → List Nat → Digest
  | s, k :: ks, w :: ws => rounds (round s k w) ks ws
  | s, _, _ => s

/-- The compression of one 64-byte block `p` into the hash `d`. -/
def block (d : Digest) (p : List Nat) : Digest :=
  let w := (schedule 48 (blockWords 16 p).reverse).reverse
  let s := rounds d K w
  ⟨add32 d.h0 s.h0, add32 d.h1 s.h1, add32 d.h2 s.h2, add32 d.h3 s.h3,
   add32 d.h4 s.h4, add32 d.h5 s.h5, add32 d.h6 s.h6, add32 d.h7 s.h7⟩

/-- The compression of `n` successive blocks of `p`. -/
def blocks : Nat → Digest → List Nat → Digest
  | 0, d, _ => d
  | n + 1, d, p => blocks n (block d (p.take 64)) (p.drop 64)

/-- The `n` low bytes of `x`, most significant first. -/
def bigEndian : Nat → Nat → List Nat
  | 0, _ => []
  | n + 1, x => (x >>> (8 * n)) % 256 :: bigEndian n x

/-- The padding of a message of `len` bytes: `0x80`, zeros up to 56 modulo 64,
and the length in bits as a 64-bit big-endian number. -/
def padding (len : Nat) : List Nat :=
  0x80 :: List.replicate ((119 - len % 64) % 64) 0 ++ bigEndian 8 ((len * 8) % 2 ^ 64)

/-- `sha256.Sum256(data)`, also the result of `New`, `Write(data)`, `Sum(nil)`:
the 32 bytes of the SHA-256 hash of `data`. -/
def Sum256 (data : List Nat) : List Nat :=
  let p := data ++ padding data.length
  let d := blocks (p.length / 64) init p
  bigEndian 4 d.h0 ++ bigEndian 4 d.h1 ++ bigEndian 4 d.h2 ++ bigEndian 4 d.h3 ++
  bigEndian 4 d.h4 ++ bigEndian 4 d.h5 ++ bigEndian 4 d.h6 ++ bigEndian 4 d.h7

end sha256

/-! ## Package `encoding/base64` -/

namespace base64

/-- The standard alphabet `encodeStd`. -/
def encodeStd : GoString :=
  str "ABCDEFGHIJKLMNOPQRSTUVWXYZabcdefghijklmnopqrstuvwxyz0123456789+/"

/-- The alphabet character of a 6-bit value. -/
def enc (v : Nat) : Nat := encodeStd.getD (v % 64) 0

/-- `base64.StdEncoding.EncodeToString(src)`: standard alphabet, padded with `=`. -/
def EncodeToString : List Nat → GoString
  | [] => []
  | [a] => [enc (a >>> 2), enc ((a &&& 3) <<< 4), 61, 61]
  | [a, b] => [enc (a >>> 2), enc (((a &&& 3) <<< 4) ||| (b >>> 4)), enc ((b &&& 15) <<< 2), 61]
  | a :: b :: c :: rest =>
    enc (a >>> 2) :: enc (((a &&& 3) <<< 4) ||| (b >>> 4)) ::
      enc (((b &&& 15) <<< 2) ||| (c >>> 6)) :: enc (c &&& 63) :: EncodeToString rest

end base64

/-! ## Package `encoding/asn1` -/

namespace asn1

/-- Loop of `big.Int.Bytes`: the base-256 digits of `n` in front of `acc`. -/
def bigBytesAux : Nat → Nat → List Nat → List Nat
  | 0, _, acc => acc
  | fuel + 1, n, acc => if n = 0 then acc else bigBytesAux fuel (n / 256) (n % 256 :: acc)

/-- `n.Bytes()` of a non-negative `big.Int`: big-endian, empty for zero. -/
def bigBytes (n : Nat) : List Nat := bigBytesAux n n []

/-- The DER length octets for a content of `len` bytes. -/
def lengthOctets (len : Nat) : List Nat :=
  if len < 128 then [len] else (0x80 + (bigBytes len).length) :: bigBytes len

/-- The DER encoding of a non-negative INTEGER (`makeBigInt`), `none` for a
nil `*big.Int` ("empty integer"). -/
def marshalBigInt (n : Option Nat) : Option (List Nat) :=
  match n with
  | none => none
  | some n =>
    let b := bigBytes n
    let body := if n = 0 then [0] else if 0x80 ≤ b.headD 0 then 0 :: b else b
    some (0x02 :: lengthOctets body.length ++ body)

/-- `asn1.Marshal(ecdsaSignature{R, S})`: the DER SEQUENCE of the two INTEGERs,
`none` when marshalling reports an error (the returned bytes are then nil). -/
def Marshal (r s : Option Nat) : Option (List Nat) :=
  match marshalBigInt r, marshalBigInt s with
  | some br, some bs => some (0x30 :: lengthOctets (br ++ bs).length ++ (br ++ bs))
  | _, _ => none

end asn1

/-! ## Package `net/http`: methods, headers, requests -/

namespace http

/-- Constant `http.MethodGet`. -/
def MethodGet : GoString := str "GET"
/-- Constant `http.MethodPost`. -/
def MethodPost : GoString := str "POST"
/-- Constant `http.MethodPut`. -/
def MethodPut : GoString := str "PUT"
/-- Constant `http.MethodPatch`. -/
def MethodPatch : GoString := str "PATCH"
/-- Constant `http.MethodDelete`. -/
def MethodDelete : GoString := str "DELETE"

/-- Token bytes of RFC 7230 (`validHeaderFieldByte`, `httpguts.IsTokenRune`). -/
def isToken (c : Nat) : Bool :=
  (97 ≤ c && c ≤ 122) || (65 ≤ c && c ≤ 90) || (48 ≤ c && c ≤ 57) ||
  -- ! # $ % & ' * + - . ^ _ (backquote) | ~
  [33, 35, 36, 37, 38, 39, 42, 43, 45, 46, 94, 95, 96, 124, 126].contains c

/-- Loop of `canonicalMIMEHeaderKey`: upper case at the start and after each
dash, lower case elsewhere. -/
def canonicalLoop (upper : Bool) : GoString → GoString
  | [] => []
  | c :: rest =>
    let c1 :=
      if upper && (97 ≤ c && c ≤ 122) then c - 32
      else if !upper && (65 ≤ c && c ≤ 90) then c + 32
      else c
    c1 :: canonicalLoop (c1 = 45) rest

/-- `textproto.CanonicalMIMEHeaderKey(s)`: a key with a byte that is not a
token byte is returned unchanged. -/
def CanonicalMIMEHeaderKey (s : GoString) : GoString :=
  if s.all isToken then canonicalLoop true s else s

/-- `http.Header`, a `map[string][]string` keyed by canonical names. -/
abbrev Header := List (GoString × List GoString)

namespace Header

/-- `h[key] = values` on the map. -/
def put (h : Header) (key : GoString) (values : List GoString) : Header :=
  match h with
  | [] => [(key, values)]
  | (k, vs) :: rest => if k = key then (k, values) :: rest else (k, vs) :: put rest key values

/-- `h[key]` on the map, with the presence flag of the two-valued form. -/
def lookup (h : Header) (key : GoString) : Option (List GoString) :=
  match h with
  | [] => none
  | (k, vs) :: rest => if k = key then some vs else lookup rest key

/-- `h.Set(key, value)`. -/
def Set (h : Header) (key value : GoString) : Header :=
  h.put (CanonicalMIMEHeaderKey key) [value]

/-- `h.Get(key)`: the first value of the key, empty when there is none. -/
def Get (h : Header) (key : GoString) : GoString :=
  match h.lookup (CanonicalMIMEHeaderKey key) with
  | some (v :: _) => v
  | _ => []

/-- Whether the header carries the key: `len(h.Values(key)) > 0`. -/
def Has (h : Header) (key : GoString) : Bool :=
  match h.lookup (CanonicalMIMEHeaderKey key) with
  | some (_ :: _) => true
  | _ => false

end Header

/-- `http.Request`, the fields this program sets: the method, the parsed
URL, the header and the bytes of the body. -/
structure Request where
  Method : GoString
  URL : url.URL
  Header : Header
  Body : GoString
  deriving DecidableEq, Repr

/-- `http.Response` as the program reads it: the status code and what
`io.ReadAll(resp.Body)` gives, the bytes and the error. -/
structure Response where
  StatusCode : Nat
  Body : GoString
  ReadErr : Option Error
  deriving DecidableEq, Repr

/-- `validMethod(method)`: a non-empty token. -/
def validMethod (method : GoString) : Bool := method ≠ [] && method.all isToken

/-- `removeEmptyPort(host)`: strips a trailing colon that has no port after it. -/
def removeEmptyPort (host : GoString) : GoString :=
  let colon := strings.LastIndex host 58
  let bracket := strings.LastIndex host 93
  let hasPort : Bool :=
    match colon, bracket with
    | some i, some j => decide (j < i)
    | some _, none => true
    | none, _ => false
  if hasPort && strings.HasSuffix host [58] then host.dropLast else host

/-- `http.NewRequest(method, url, bytes.NewBuffer(body))`. -/
def NewRequest (method urlStr : GoString) (body : Option GoString) : Except Error Request :=
  let method := if method = [] then MethodGet else method
  if !validMethod method then .error (Error.errorf "net/http: invalid method %q" [method])
  else
    match url.Parse urlStr with
    | .error err => .error err
    | .ok u =>
      .ok { Method := method, URL := { u with Host := removeEmptyPort u.Host },
            Header := [], Body := body.getD [] }

end http

/-! ## Package `model` (`model/const.go`) -/

namespace model

/-- The constants of `model/const.go` that the modelled code reads. -/
structure Config where
  URL_PRE : GoString
  API_KEY : GoString
  AK_ID : GoString
  deriving DecidableEq, Repr

/-- The values written in the repository. -/
def defaults : Config :=
  { URL_PRE := str "https://api.mycactus.dev", API_KEY := str "", AK_ID := str "" }

end model

/-! ## Package `cactus` (`cactus/converter.go`, `cactus/client.go`) -/

namespace cactus

/-- Function `buildAuthorization`: `fmt.Sprintf("api %s:%s", model.AK_ID, sign)`. -/
def buildAuthorization (cfg : model.Config) (sign : GoString) : GoString :=
  str "api " ++ cfg.AK_ID ++ str ":" ++ sign

/-- Function `getContentSha256`: the base64 text of the SHA-256 hash of `body`;
writing a nil slice to the hash writes no byte. -/
def getContentSha256 (body : Option GoString) : GoString :=
  base64.EncodeToString (sha256.Sum256 (body.getD []))

/-- Function `formatURIParameters`. -/
def formatURIParameters (uriStr : GoString) : GoString × Option Error :=
  match url.Parse uriStr with
  | .error err => ([], some err)
  | .ok u =>
    let query := u.Query
    if query.length = 0 then (u.Path, none)
    else
      let keys := sort.Strings query.keys
      let params := keys.map
        (fun k => k ++ str "=[" ++ strings.Join (query.get k) (str ",") ++ str "]")
      (u.Path ++ str "?\x7b" ++ strings.Join params (str ", ") ++ str "\x7d", none)

/-- Function `buildContentToSign`. -/
def buildContentToSign (cfg : model.Config) (method uri date nonce : GoString)
    (body : Option GoString) : GoString × Option Error :=
  match formatURIParameters uri with
  | (_, some err) => ([], some err)
  | (formatURI, none) =>
    if method = http.MethodGet then
      (method ++ str "\napplication/json\n\napplication/json\n" ++ date ++
        str "\nx-api-key:" ++ cfg.API_KEY ++ str "\nx-api-nonce:" ++ nonce ++
        str "\n" ++ formatURI, none)
    else
      let contentSHA : GoString :=
        if method = http.MethodPost ∨ method = http.MethodPut ∨ method = http.MethodPatch then
          getContentSha256 body
        else []
      (method ++ str "\napplication/json\n" ++ contentSHA ++ str "\napplication/json\n" ++
        date ++ str "\nx-api-key:" ++ cfg.API_KEY ++ str "\nx-api-nonce:" ++ nonce ++
        str "\n" ++ formatURI, none)

/-- An ECDSA private key (`*ecdsa.PrivateKey` when not nil): the secret scalar
and the public point. -/
structure PrivateKey where
  D : Nat
  X : Nat
  Y : Nat
  deriving DecidableEq, Repr

/-- What one call of `buildRequest` takes from outside the program. -/
structure Env where
  /-- Value of `time.Now().UTC().Format(model.TimeFormat)`. -/
  date : GoString
  /-- Value of `uuid.New().String()`. -/
  nonce : GoString
  /-- Result of `ecdsa.Sign(rand.Reader, key, hash)` for a key that is not nil:
  the pair `(r, s)` or an error. -/
  ecdsaSign : PrivateKey → List Nat → Except Error (Nat × Nat)
  /-- Result of `c.client.Do(ctx, req)`, the whole logical call. -/
  Do : http.Request → Except Error http.Response

/-- Type `ClientImpl`; `privateKey` is `none` for a nil pointer.  The HTTP
client is reached through `Env.Do`. -/
structure ClientImpl where
  baseURL : GoString
  privateKey : Option PrivateKey

/-- What a call of `buildRequest` does that can be seen from outside, in order. -/
inductive Event where
  /-- The call `c.Sign(content)`. -/
  | signed (content : GoString)
  /-- The call `c.client.Do(ctx, req)`. -/
  | sent (req : http.Request)
  /-- The call `fmt.Println(err)`. -/
  | printed (err : Error)
  deriving DecidableEq, Repr

/-- How a call ends: it returns its two results, or it panics. -/
inductive Outcome where
  | returned (body : Option GoString) (err : Option Error)
  | panicked
  deriving DecidableEq, Repr

/-- A finished call: the events in order and the way it ended. -/
structure Run where
  events : List Event
  outcome : Outcome
  deriving DecidableEq, Repr

/-- Method `ClientImpl.Sign`; `none` when the call panics (`ecdsa.Sign`
dereferences a nil key).  The errors of `ecdsa.Sign` and `asn1.Marshal` are
dropped by the code: after a signing error `r` and `s` are nil, marshalling
fails and the encoded bytes are empty. -/
def ClientImpl.Sign (c : ClientImpl) (env : Env) (content : GoString) : Option GoString :=
  let hashed := sha256.Sum256 content
  match c.privateKey with
  | none => none
  | some key =>
    let rs : Option Nat × Option Nat :=
      match env.ecdsaSign key hashed with
      | .ok (r, s) => (some r, some s)
      | .error _ => (none, none)
    let sigAsn1 := asn1.Marshal rs.1 rs.2
    some (base64.EncodeToString (sigAsn1.getD []))

/-- Method `ClientImpl.buildRequest`. -/
def ClientImpl.buildRequest (cfg : model.Config) (c : ClientImpl) (env : Env)
    (method uri : GoString) (body : Option GoString) : Run :=
  -- 0. date and nonce
  let date := env.date
  let nonce := env.nonce
  -- 1. content to sign, signature
  match buildContentToSign cfg method uri date nonce body with
  | (_, some err) => ⟨[], .returned none (some err)⟩
  | (signContent, none) =>
    match c.Sign env signContent with
    | none => ⟨[.signed signContent], .panicked⟩
    | some sign =>
      -- 2. Authorization
      let auth := buildAuthorization cfg sign
      -- 3. request
      match http.NewRequest method (c.baseURL ++ uri) body with
      | .error err => ⟨[.signed signContent], .returned none (some err)⟩
      | .ok req =>
        -- 4. headers
        let headers := req.Header
        let headers := headers.Set (str "x-api-key") cfg.API_KEY
        let headers := headers.Set (str "x-api-nonce") nonce
        let headers := headers.Set (str "Accept") (str "application/json")
        let headers := headers.Set (str "Date") date
        let headers := headers.Set (str "Content-Type") (str "application/json")
        let headers := headers.Set (str "Authorization") auth
        let headers :=
          if method = http.MethodPost ∨ method = http.MethodPut ∨ method = http.MethodPatch then
            headers.Set (str "Content-SHA256") (getContentSha256 body)
          else headers
        let req := { req with Header := headers }
        -- 5. send
        match env.Do req with
        | .error err =>
          ⟨[.signed signContent, .sent req, .printed err], .returned none (some err)⟩
        | .ok resp =>
          match resp.ReadErr with
          | some err =>
            ⟨[.signed signContent, .sent req, .printed err], .returned none (some err)⟩
          | none => ⟨[.signed signContent, .sent req], .returned (some resp.Body) none⟩

end cactus

/-! ## Reading a query as a list of pairs -/

namespace url

/-- The pair that one `&`-separated segment of a query contributes: name and
value cut at the first `=` and unescaped; `none` for a segment that
`parseQuery` skips (it is empty, has a semicolon, or has an invalid escape). -/
def decodePair (seg : GoString) : Option (GoString × GoString) :=
  if strings.Contains seg 59 then none
  else if seg = [] then none
  else
    match QueryUnescape (strings.Cut seg 61).1, QueryUnescape (strings.Cut seg 61).2.1 with
    | .ok k, .ok v => some (k, v)
    | _, _ => none

/-- The name and value pairs of a query, in their order of appearance. -/
def decodedPairs (query : GoString) : List (GoString × GoString) :=
  (strings.Split query 38).filterMap decodePair

/-- The values that the pairs give to `name`, in their order of appearance. -/
def valuesOf (pairs : List (GoString × GoString)) (name : GoString) : List GoString :=
  (pairs.filter (fun kv => kv.1 = name)).map Prod.snd

end url

/-- A well-formed `map[string][]string`: no key twice, no key with an empty
list of values. -/
def url.Values.WF (m : url.Values) : Prop :=
  m.keys.Nodup ∧ ∀ kv ∈ m, kv.2 ≠ []

/-! ## Values used to state and to exercise the properties of `buildRequest` -/

namespace cactus

/-- The six headers that `buildRequest` sets on every request, on the empty
header of a new request. -/
def commonHeaders (cfg : model.Config) (nonce date auth : GoString) : http.Header :=
  let headers : http.Header := []
  let headers := headers.Set (str "x-api-key") cfg.API_KEY
  let headers := headers.Set (str "x-api-nonce") nonce
  let headers := headers.Set (str "Accept") (str "application/json")
  let headers := headers.Set (str "Date") date
  let headers := headers.Set (str "Content-Type") (str "application/json")
  headers.Set (str "Authorization") auth

/-- The headers that `buildRequest` puts on a request: the common ones and,
for `POST`, `PUT` and `PATCH`, `Content-SHA256` with the hash of the body. -/
def requestHeaders (cfg : model.Config) (method nonce date auth : GoString)
    (body : Option GoString) : http.Header :=
  if method = http.MethodPost ∨ method = http.MethodPut ∨ method = http.MethodPatch then
    (commonHeaders cfg nonce date auth).Set (str "Content-SHA256") (getContentSha256 body)
  else commonHeaders cfg nonce date auth

/-- A configuration with values that are not empty. -/
def sampleConfig : model.Config :=
  { URL_PRE := str "https://api.mycactus.dev", API_KEY := str "KEY", AK_ID := str "ak" }

/-- A client with a key. -/
def sampleClient : ClientImpl :=
  { baseURL := str "https://api.mycactus.dev", privateKey := some ⟨1, 2, 3⟩ }

/-- An environment: a date, a nonce, a signer that answers `(200, 3)` and a
server that answers 200 with the body `ok`. -/
def sampleEnv : Env :=
  { date := str "Tue, 03 Mar 2020 12:26:57 GMT", nonce := str "n1",
    ecdsaSign := fun _ _ => .ok (200, 3),
    Do := fun _ => .ok ⟨200, str "ok", none⟩ }

/-- The request that `buildRequest` sends for `POST /p?b=1&a=2` with an empty
body in the sample environment. -/
def sampleRequest : http.Request :=
  { Method := str "POST",
    URL := { Scheme := str "https", Host := str "api.mycactus.dev", Path := str "/p",
             RawQuery := str "b=1&a=2" },
    Header :=
      [(str "X-Api-Key", [str "KEY"]), (str "X-Api-Nonce", [str "n1"]),
       (str "Accept", [str "application/json"]),
       (str "Date", [str "Tue, 03 Mar 2020 12:26:57 GMT"]),
       (str "Content-Type", [str "application/json"]),
       (str "Authorization", [str "api ak:MAcCAgDIAgED"]),
       (str "Content-Sha256", [str "47DEQpj8HBSa+/TImW+5JCeuQeRkm5NMpJWZG3hSuFU="])],
    Body := [] }

end cactus

/-! ## Package `context` -/

namespace context

/-- A `context.Context` as a caller's cancellation signal: `cancelledBefore` is
`some n` when the signal fires before the physical attempt number `n` of the
call (counted from 0) starts, so `some 0` is a context cancelled before the
call and `some 1` one cancelled during the first wait; `none` never fires. -/
structure Context where
  cancelledBefore : Option Nat
  deriving DecidableEq, Repr

/-- Function `context.Background()`. -/
def Background : Context := ⟨none⟩

end context

/-! ## Package `backoff` (`github.com/cenkalti/backoff/v4`) -/

namespace backoff

/-- Method `ExponentialBackOff.NextBackOff` for a call at which the elapsed time
is `elapsed` and the randomized interval drawn is `next`: `none` for `Stop`,
returned when `MaxElapsedTime` is not zero and `elapsed + next` exceeds it. -/
def exponentialNext (maxElapsedTime elapsed next : Int) : Option Int :=
  if maxElapsedTime ≠ 0 ∧ elapsed + next > maxElapsedTime then none else some next

end backoff

/-! ## Package `httpclient` (`httpclient/client.go`) -/

namespace http

/-- Constant `http.StatusInternalServerError`. -/
def StatusInternalServerError : Nat := 500

end http

namespace httpclient

/-- Type `HTTPClient`, the fields that `Do` reads: `maxRetries` (an `int`) and
`maxWaitTime` (a `time.Duration`, in nanoseconds).  The `*http.Client` is
reached through `World.transport`. -/
structure HTTPClient where
  maxRetries : Int
  maxWaitTime : Int
  deriving DecidableEq, Repr

/-- What one call of `Do` takes from outside the program. -/
structure World where
  /-- Result of the call number `n` (from 0) of `c.client.Do(req)`: a response,
  or a transport error with a nil response. -/
  transport : Nat → http.Request → Except Error http.Response
  /-- Value of `GetElapsedTime()` in the call number `n` of
  `ExponentialBackOff.NextBackOff`, in nanoseconds. -/
  elapsed : Nat → Int
  /-- The randomized interval drawn in that call, in nanoseconds. -/
  interval : Nat → Int

/-- What a call of `Do` does that can be seen from outside, in order. -/
inductive Event where
  /-- The physical attempt number `n`: the call `c.client.Do(req)`. -/
  | attempt (n : Nat) (req : http.Request)
  /-- The call `resp.Body.Close()`. -/
  | closed (resp : http.Response)
  /-- A wait of `d` nanoseconds between two attempts. -/
  | wait (d : Int)
  deriving DecidableEq, Repr

/-- The events of a call and its two results, or the state of the variables
`resp` and `err` of `Do` after a step. -/
structure Run where
  events : List Event
  resp : Option http.Response
  err : Option Error
  deriving DecidableEq, Repr

/-- The number of physical attempts among the events. -/
def countAttempts : List Event → Nat
  | [] => 0
  | Event.attempt _ _ :: rest => countAttempts rest + 1
  | _ :: rest => countAttempts rest

/-- The number of physical attempts of a call. -/
def Run.attempts (r : Run) : Nat := countAttempts r.events

/-- Function `closeBody(resp)`. -/
def closeBody (resp : Option http.Response) : List Event :=
  match resp with
  | some r => [Event.closed r]
  | none => []

/-- Conversion `uint64(x)` of an `int`. -/
def uint64 (x : Int) : Nat := (x % 2 ^ 64).toNat

/-- The closure `operation` of `Do`, at the physical attempt number `n`, with
`resp` the response of the attempt before: the events, the new values of the
variables `resp` and `err`; `err` is what the closure returns. -/
def operation (w : World) (req : http.Request) (n : Nat) (resp : Option http.Response) : Run :=
  let closing := closeBody resp
  match w.transport n req with
  | .error err => ⟨closing ++ [Event.attempt n req], none, some err⟩
  | .ok r =>
    if r.StatusCode ≥ http.StatusInternalServerError then
      ⟨closing ++ [Event.attempt n req], some r,
        some (Error.errorf "server error: status code %d" [str (Nat.repr r.StatusCode)])⟩
    else ⟨closing ++ [Event.attempt n req], some r, none⟩

/-- Function `backoff.Retry(operation, backoff.WithMaxRetries(expBackoff, maxTries))`,
from the physical attempt number `n` on, when `left = maxTries - numTries`
retries are left.  After a failed attempt the wrapper `WithMaxRetries` stops
when no retry is left, else it asks the exponential backoff, which stops on
its elapsed-time budget; otherwise the loop waits and calls `operation`
again.  The context of the loop is `context.Background()`, which is never
done. -/
def retry (c : HTTPClient) (w : World) (req : http.Request) :
    Nat → Nat → Option http.Response → Run
  | 0, n, resp => operation w req n resp
  | left + 1, n, resp =>
    let o := operation w req n resp
    match o.err with
    | none => o
    | some _ =>
      match backoff.exponentialNext c.maxWaitTime (w.elapsed n) (w.interval n) with
      | none => o
      | some d =>
        let r := retry c w req left (n + 1) o.resp
        ⟨o.events ++ Event.wait d :: r.events, r.resp, r.err⟩

set_option linter.unusedVariables false in
/-- Method `HTTPClient.Do`.  The parameter `ctx` is not read. -/
def HTTPClient.Do (c : HTTPClient) (w : World) (ctx : context.Context) (req : http.Request) :
    Run :=
  let r := retry c w req (uint64 c.maxRetries) 0 none
  match r.err with
  | some err => ⟨r.events ++ closeBody r.resp, none, some err⟩
  | none => ⟨r.events, r.resp, none⟩

/-- A request to exercise `Do`. -/
def sampleRequest : http.Request :=
  { Method := str "GET",
    URL := { Scheme := str "https", Host := str "api.mycactus.dev", Path := str "/p" },
    Header := [],
    Body := [] }

/-- A server that answers 500 twice and then 200, fast: every attempt takes 10
milliseconds and every interval drawn is of 500 milliseconds. -/
def sampleWorld : World :=
  { transport := fun n _ =>
      if n < 2 then .ok ⟨500, [], none⟩ else .ok ⟨200, str "ok", none⟩,
    elapsed := fun n => 10000000 * (n + 1) + 500000000 * n,
    interval := fun _ => 500000000 }

/-- A server that always answers 500, fast. -/
def failingWorld : World :=
  { transport := fun _ _ => .ok ⟨500, [], none⟩,
    elapsed := fun n => 10000000 * (n + 1) + 500000000 * n,
    interval := fun _ => 500000000 }

/-- A server that always answers 500, each time after 29.8 seconds. -/
def slowFailingWorld : World :=
  { transport := fun _ _ => .ok ⟨500, [], none⟩,
    elapsed := fun n => 29800000000 * (n + 1) + 500000000 * n,
    interval := fun _ => 500000000 }

/-- A server that answers 500 twice and then 200, each time after 29.8 seconds. -/
def slowWorld : World :=
  { transport := fun n _ =>
      if n < 2 then .ok ⟨500, [], none⟩ else .ok ⟨200, str "ok", none⟩,
    elapsed := fun n => 29800000000 * (n + 1) + 500000000 * n,
    interval := fun _ => 500000000 }

/-- A server that always answers 404. -/
def notFoundWorld : World :=
  { transport := fun _ _ => .ok ⟨404, str "not found", none⟩,
    elapsed := fun n => 10000000 * (n + 1) + 500000000 * n,
    interval := fun _ => 500000000 }

/-- The client that `cactus.NewClient` builds: three retries, and the default
budget of one minute. -/
def sampleClient : HTTPClient := { maxRetries := 3, maxWaitTime := 60000000000 }

end httpclient

/-! ## Values used to state the properties of signing and of cancellation -/

namespace asn1

/-- The number that a list of bytes writes, most significant byte first. -/
def beValue : List Nat → Nat
  | [] => 0
  | b :: rest => b * 256 ^ rest.length + beValue rest

/-- The content octets of the DER INTEGER of a number that is not negative:
its bytes, after a zero byte when the first has its high bit set, and one
zero byte for zero. -/
def integerContent (n : Nat) : List Nat :=
  if n = 0 then [0] else if 0x80 ≤ (bigBytes n).headD 0 then 0 :: bigBytes n else bigBytes n

/-- The DER INTEGER of a number that is not negative: tag 2, length, content. -/
def integer (n : Nat) : List Nat :=
  0x02 :: lengthOctets (integerContent n).length ++ integerContent n

/-- The DER SEQUENCE of the two INTEGERs `r` and `s`: tag `0x30`, length, the
two INTEGERs in that order. -/
def sequence (r s : Nat) : List Nat :=
  0x30 :: lengthOctets (integer r ++ integer s).length ++ (integer r ++ integer s)

end asn1

namespace cactus

/-- Step 5 of `buildRequest`: the results returned for what `c.client.Do` and
`io.ReadAll` give. -/
def outcomeOf (r : Except Error http.Response) : Outcome :=
  match r with
  | .error err => .returned none (some err)
  | .ok resp =>
    match resp.ReadErr with
    | some err => .returned none (some err)
    | none => .returned (some resp.Body) none

/-- A client whose key is nil, as `InitPrivateKey` leaves it after a failure. -/
def keylessClient : ClientImpl :=
  { baseURL := str "https://api.mycactus.dev", privateKey := none }

/-- The sample environment with a signing primitive that reports an error. -/
def brokenSignerEnv : Env :=
  { date := str "Tue, 03 Mar 2020 12:26:57 GMT", nonce := str "n1",
    ecdsaSign := fun _ _ => .error (Error.new "ecdsa: signing failed"),
    Do := fun _ => .ok ⟨200, str "ok", none⟩ }

/-- The request that `buildRequest` sends for `POST /p?b=1&a=2` with an empty
body when the signing primitive reports an error: the signature is empty. -/
def unsignedRequest : http.Request :=
  { Method := str "POST",
    URL := { Scheme := str "https", Host := str "api.mycactus.dev", Path := str "/p",
             RawQuery := str "b=1&a=2" },
    Header :=
      [(str "X-Api-Key", [str "KEY"]), (str "X-Api-Nonce", [str "n1"]),
       (str "Accept", [str "application/json"]),
       (str "Date", [str "Tue, 03 Mar 2020 12:26:57 GMT"]),
       (str "Content-Type", [str "application/json"]),
       (str "Authorization", [str "api ak:"]),
       (str "Content-Sha256", [str "47DEQpj8HBSa+/TImW+5JCeuQeRkm5NMpJWZG3hSuFU="])],
    Body := [] }

/-- The two results of `HTTPClient.Do` as one value; `Do` returns a response
whenever its error is nil. -/
def resultOf (r : httpclient.Run) : Except Error http.Response :=
  match r.err, r.resp with
  | some err, _ => .error err
  | none, some resp => .ok resp
  | none, none => .error (Error.new "nil response")

/-- The sample environment of `buildRequest` when `c.client` is the HTTP client
`hc` in the world `w` and the caller passes the context `ctx`: the call
`c.client.Do(ctx, req)` is `hc.Do`. -/
def clientEnv (hc : httpclient.HTTPClient) (w : httpclient.World) (ctx : context.Context) :
    Env :=
  { date := str "Tue, 03 Mar 2020 12:26:57 GMT", nonce := str "n1",
    ecdsaSign := fun _ _ => .ok (200, 3),
    Do := fun req => resultOf (hc.Do w ctx req) }

end cactus

/-! # Properties -/

/-! ## Order on strings and sorting -/

theorem strLess_irrefl (a : GoString) : strLess a a = false := by
  induction a with
  | nil => rfl
  | cons x xs ih => simp [strLess, ih]

theorem strLess_asymm : ∀ (a b : GoString), strLess a b = true → strLess b a = false
  | [], [], h => by simp [strLess] at h
  | [], _ :: _, _ => by simp [strLess]
  | _ :: _, [], h => by simp [strLess] at h
  | x :: xs, y :: ys, h => by
    simp only [strLess, Bool.or_eq_true, Bool.and_eq_true, decide_eq_true_eq] at h
    simp only [strLess, Bool.or_eq_false_iff, Bool.and_eq_false_iff, decide_eq_false_iff_not]
    rcases h with h | ⟨h1, h2⟩
    · exact ⟨by omega, Or.inl (by omega)⟩
    · exact ⟨by omega, Or.inr (strLess_asymm xs ys h2)⟩

theorem strLess_connex : ∀ (a b : GoString), strLess a b = false → strLess b a = false → a = b
  | [], [], _, _ => rfl
  | [], _ :: _, h, _ => by simp [strLess] at h
  | _ :: _, [], _, h => by simp [strLess] at h
  | x :: xs, y :: ys, h1, h2 => by
    simp only [strLess, Bool.or_eq_false_iff, Bool.and_eq_false_iff, decide_eq_false_iff_not] at h1 h2
    have hxy : x = y := by omega
    subst hxy
    have e := strLess_connex xs ys (by simpa using h1.2) (by simpa using h2.2)
    rw [e]

theorem strLess_trans : ∀ (a b c : GoString),
    strLess a b = true → strLess b c = true → strLess a c = true
  | [], _, [], _, h => by cases ‹GoString› <;> simp [strLess] at h
  | [], _, _ :: _, _, _ => by simp [strLess]
  | _ :: _, [], _, h, _ => by simp [strLess] at h
  | _ :: _, _ :: _, [], _, h => by simp [strLess] at h
  | x :: xs, y :: ys, z :: zs, h1, h2 => by
    simp only [strLess, Bool.or_eq_true, Bool.and_eq_true, decide_eq_true_eq] at h1 h2 ⊢
    rcases h1 with h1 | ⟨e1, h1⟩ <;> rcases h2 with h2 | ⟨e2, h2⟩
    · exact Or.inl (by omega)
    · exact Or.inl (by omega)
    · exact Or.inl (by omega)
    · exact Or.inr ⟨by omega, strLess_trans xs ys zs h1 h2⟩

theorem strLe_total (a b : GoString) : strLe a b ∨ strLe b a := by
  unfold strLe
  cases h : strLess b a
  · exact Or.inl rfl
  · exact Or.inr (strLess_asymm b a h)

theorem strLe_antisymm (a b : GoString) (h1 : strLe a b) (h2 : strLe b a) : a = b :=
  strLess_connex a b h2 h1

theorem strLe_trans (a b c : GoString) (h1 : strLe a b) (h2 : strLe b c) : strLe a c := by
  unfold strLe at *
  cases h : strLess c a
  · rfl
  · -- c < a, a ≤ b, b ≤ c
    cases hcb : strLess b a
    · -- ¬ b < a; then c < b or c = b or b < c
      cases hbc : strLess a b
      · have e := strLess_connex a b hbc hcb
        subst e
        rw [h] at h2; exact h2
      · have := strLess_trans c a b h hbc
        rw [this] at h2; exact h2
    · rw [hcb] at h1; exact h1

instance strLe.isTotal : IsTotal GoString strLe := ⟨strLe_total⟩
instance strLe.isTrans : IsTrans GoString strLe := ⟨strLe_trans⟩
instance strLe.isAntisymm : IsAntisymm GoString strLe := ⟨strLe_antisymm⟩

/-- The result of `sort.Strings` is in increasing order. -/
theorem sort.Strings_sorted (x : List GoString) : (sort.Strings x).Sorted strLe :=
  List.sorted_insertionSort strLe x

/-- The result of `sort.Strings` has the elements of its input. -/
theorem sort.Strings_perm (x : List GoString) : (sort.Strings x).Perm x :=
  List.perm_insertionSort strLe x

/-- Any list that is a sorted rearrangement of `x` is `sort.Strings x`: the
result does not depend on the sorting algorithm. -/
theorem sort.Strings_unique (x y : List GoString) (hp : y.Perm x) (hs : y.Sorted strLe) :
    y = sort.Strings x :=
  List.eq_of_perm_of_sorted (hp.trans (sort.Strings_perm x).symm) hs (sort.Strings_sorted x)

/-- The result of `sort.Strings` does not depend on the order of the input,
such as the order in which a map hands out its keys. -/
theorem sort.Strings_congr (x y : List GoString) (hp : x.Perm y) :
    sort.Strings x = sort.Strings y :=
  sort.Strings_unique y (sort.Strings x) ((sort.Strings_perm x).trans hp) (sort.Strings_sorted x)

/-- Without repeated elements the result of `sort.Strings` is strictly increasing. -/
theorem sort.Strings_strict (x : List GoString) (hx : x.Nodup) :
    (sort.Strings x).Sorted (fun a b => strLess a b = true) := by
  have hs := sort.Strings_sorted x
  have hn : (sort.Strings x).Nodup := (sort.Strings_perm x).nodup_iff.mpr hx
  have := (List.pairwise_and_iff.mpr ⟨hs, hn⟩ :
    (sort.Strings x).Pairwise (fun a b => strLe a b ∧ a ≠ b))
  refine List.Pairwise.imp ?_ this
  intro a b hab
  cases h : strLess a b
  · exact absurd (strLess_connex a b h hab.1) hab.2
  · rfl

/-! ## The query map -/

theorem url.Values.get_add (m : url.Values) (k v k' : GoString) :
    (m.add k v).get k' = if k' = k then m.get k ++ [v] else m.get k' := by
  induction m with
  | nil =>
    by_cases h : k' = k
    · simp [url.Values.add, url.Values.get, h]
    · have h' : ¬ k = k' := fun e => h e.symm
      simp [url.Values.add, url.Values.get, h, h']
  | cons kv rest ih =>
    obtain ⟨k0, vs⟩ := kv
    by_cases h0 : k0 = k
    · subst h0
      by_cases h : k' = k0
      · subst h; simp [url.Values.add, url.Values.get]
      · have h' : ¬ k0 = k' := fun e => h e.symm
        simp [url.Values.add, url.Values.get, h, h']
    · by_cases h : k' = k
      · subst h
        simp [url.Values.add, url.Values.get, h0, ih]
      · by_cases h1 : k0 = k'
        · simp [url.Values.add, url.Values.get, h0, h1, h]
        · simp [url.Values.add, url.Values.get, h0, h1, h, ih]

theorem url.Values.mem_keys_add (m : url.Values) (k v k' : GoString) :
    k' ∈ (m.add k v).keys ↔ k' ∈ m.keys ∨ k' = k := by
  induction m with
  | nil => simp [url.Values.add, url.Values.keys]
  | cons kv rest ih =>
    obtain ⟨k0, vs⟩ := kv
    by_cases h0 : k0 = k
    · subst h0
      simp only [url.Values.add, url.Values.keys, if_true, List.map_cons, List.mem_cons]
      tauto
    · simp only [url.Values.keys] at ih
      simp only [url.Values.add, url.Values.keys, h0, if_false, List.map_cons, List.mem_cons, ih]
      tauto

theorem url.Values.WF_add (m : url.Values) (k v : GoString) (h : m.WF) : (m.add k v).WF := by
  induction m with
  | nil =>
    refine ⟨by simp [url.Values.add, url.Values.keys], ?_⟩
    intro kv hkv
    simp [url.Values.add] at hkv
    subst hkv; simp
  | cons kv rest ih =>
    obtain ⟨k0, vs⟩ := kv
    obtain ⟨hn, hv⟩ := h
    have hn' : k0 ∉ url.Values.keys rest ∧ (url.Values.keys rest).Nodup := by
      simpa [url.Values.keys] using hn
    have hrest : url.Values.WF rest := ⟨hn'.2, fun kv hkv => hv kv (List.mem_cons_of_mem _ hkv)⟩
    by_cases h0 : k0 = k
    · subst h0
      refine ⟨by simpa [url.Values.add, url.Values.keys] using hn, ?_⟩
      intro kv hkv
      simp only [url.Values.add, if_true, List.mem_cons] at hkv
      rcases hkv with e | hkv
      · subst e; simp
      · exact hv kv (List.mem_cons_of_mem _ hkv)
    · obtain ⟨ihn, ihv⟩ := ih hrest
      refine ⟨?_, ?_⟩
      · have hmem : k0 ∉ url.Values.keys (url.Values.add rest k v) := by
          rw [url.Values.mem_keys_add]
          intro hc
          rcases hc with hc | hc
          · exact hn'.1 hc
          · exact h0 hc
        simp only [url.Values.add, h0, if_false, url.Values.keys, List.map_cons,
          List.nodup_cons]
        exact ⟨hmem, ihn⟩
      · intro kv hkv
        simp only [url.Values.add, h0, if_false, List.mem_cons] at hkv
        rcases hkv with e | hkv
        · subst e; exact hv _ (List.mem_cons_self _ _)
        · exact ihv kv hkv

/-- In a well-formed map the keys are the names that have a value. -/
theorem url.Values.mem_keys_iff (m : url.Values) (h : m.WF) (k : GoString) :
    k ∈ m.keys ↔ m.get k ≠ [] := by
  induction m with
  | nil => simp [url.Values.keys, url.Values.get]
  | cons kv rest ih =>
    obtain ⟨k0, vs⟩ := kv
    obtain ⟨hn, hv⟩ := h
    have hn' : k0 ∉ url.Values.keys rest ∧ (url.Values.keys rest).Nodup := by
      simpa [url.Values.keys] using hn
    have hrest : url.Values.WF rest := ⟨hn'.2, fun kv hkv => hv kv (List.mem_cons_of_mem _ hkv)⟩
    have ih := ih hrest
    by_cases h0 : k0 = k
    · subst h0
      have : vs ≠ [] := hv (k0, vs) (List.mem_cons_self _ _)
      simp [url.Values.keys, url.Values.get, this]
    · have h0' : ¬ k = k0 := fun e => h0 e.symm
      simp only [url.Values.keys] at ih
      simp [url.Values.keys, url.Values.get, h0, h0', ih]

/-- One step of the loop of `parseQuery` adds the pair of the segment, if it has one. -/
theorem url.parseQueryStep_fst (acc : url.Values × Option Error) (seg : GoString) :
    (url.parseQueryStep acc seg).1 =
      match url.decodePair seg with
      | some kv => acc.1.add kv.1 kv.2
      | none => acc.1 := by
  unfold url.parseQueryStep url.decodePair
  by_cases h1 : strings.Contains seg 59 = true
  · simp [h1]
  · by_cases h2 : seg = []
    · subst h2; simp [strings.Contains]
    · simp only [h1, h2, if_false]
      cases url.QueryUnescape (strings.Cut seg 61).1 with
      | error e => simp
      | ok k =>
        cases url.QueryUnescape (strings.Cut seg 61).2.1 with
        | error e => simp
        | ok v => simp

theorem url.parseQuery_foldl (segs : List GoString) (acc : url.Values × Option Error) :
    (segs.foldl url.parseQueryStep acc).1 =
      (segs.filterMap url.decodePair).foldl (fun m kv => m.add kv.1 kv.2) acc.1 := by
  induction segs generalizing acc with
  | nil => rfl
  | cons seg rest ih =>
    rw [List.foldl_cons, ih, url.parseQueryStep_fst]
    cases h : url.decodePair seg with
    | none => simp [List.filterMap_cons, h]
    | some kv => simp [List.filterMap_cons, h]

/-- The map of `u.Query()` is built from the decodable pairs of the raw query, in order. -/
theorem url.Query_eq (u : url.URL) :
    u.Query = (url.decodedPairs u.RawQuery).foldl
      (fun (m : url.Values) kv => m.add kv.1 kv.2) [] := by
  unfold url.URL.Query url.ParseQuery url.parseQuery url.decodedPairs
  exact url.parseQuery_foldl _ _

theorem url.Values.get_foldl (pairs : List (GoString × GoString)) (m : url.Values)
    (k : GoString) :
    (pairs.foldl (fun m kv => url.Values.add m kv.1 kv.2) m).get k =
      m.get k ++ url.valuesOf pairs k := by
  induction pairs generalizing m with
  | nil => simp [url.valuesOf]
  | cons kv rest ih =>
    rw [List.foldl_cons, ih, url.Values.get_add]
    by_cases h : k = kv.1
    · subst h
      simp [url.valuesOf, List.filter_cons]
    · have h' : ¬ kv.1 = k := fun e => h e.symm
      simp [url.valuesOf, List.filter_cons, h, h']

theorem url.Values.WF_foldl (pairs : List (GoString × GoString)) (m : url.Values)
    (h : m.WF) : (pairs.foldl (fun m kv => url.Values.add m kv.1 kv.2) m).WF := by
  induction pairs generalizing m with
  | nil => exact h
  | cons kv rest ih => exact ih _ (url.Values.WF_add m kv.1 kv.2 h)

theorem url.Values.WF_nil : url.Values.WF [] :=
  ⟨by simp [url.Values.keys], by simp⟩

/-- The map of `u.Query()` is well formed. -/
theorem url.Query_WF (u : url.URL) : u.Query.WF := by
  rw [url.Query_eq]
  exact url.Values.WF_foldl _ _ url.Values.WF_nil

/-- The values of a name in `u.Query()` are the values of its pairs, in their
order of appearance. -/
theorem url.Query_get (u : url.URL) (k : GoString) :
    u.Query.get k = url.valuesOf (url.decodedPairs u.RawQuery) k := by
  rw [url.Query_eq, url.Values.get_foldl]
  simp [url.Values.get]

theorem url.valuesOf_ne_nil (pairs : List (GoString × GoString)) (k : GoString) :
    url.valuesOf pairs k ≠ [] ↔ ∃ v, (k, v) ∈ pairs := by
  unfold url.valuesOf
  constructor
  · intro h
    obtain ⟨v, hv⟩ := List.exists_mem_of_ne_nil _ h
    obtain ⟨kv, hkv, e⟩ := List.mem_map.mp hv
    have := List.mem_filter.mp hkv
    refine ⟨v, ?_⟩
    have hk : kv.1 = k := by simpa using this.2
    have : kv = (k, v) := by
      cases kv; simp_all
    rw [← this]; exact (List.mem_filter.mp hkv).1
  · rintro ⟨v, hv⟩ hnil
    have : v ∈ List.map Prod.snd (List.filter (fun kv => decide (kv.1 = k)) pairs) :=
      List.mem_map.mpr ⟨(k, v), List.mem_filter.mpr ⟨hv, by simp⟩, rfl⟩
    rw [hnil] at this
    exact List.not_mem_nil _ this

/-- The keys of `u.Query()` are the names of the decodable pairs. -/
theorem url.Query_mem_keys (u : url.URL) (k : GoString) :
    k ∈ u.Query.keys ↔ ∃ v, (k, v) ∈ url.decodedPairs u.RawQuery := by
  rw [url.Values.mem_keys_iff _ (url.Query_WF u), url.Query_get, url.valuesOf_ne_nil]

/-! ## The formatted URI -/

/-- The result of `formatURIParameters` on a URI that parses. -/
theorem cactus.formatURIParameters_of_parse (uriStr : GoString) (u : url.URL)
    (hparse : url.Parse uriStr = .ok u) :
    cactus.formatURIParameters uriStr =
      if u.Query.length = 0 then (u.Path, none)
      else
        (u.Path ++ str "?\x7b" ++
          strings.Join ((sort.Strings u.Query.keys).map (fun k =>
            k ++ str "=[" ++ strings.Join (u.Query.get k) (str ",") ++ str "]")) (str ", ")
          ++ str "\x7d", none) := by
  unfold cactus.formatURIParameters
  rw [hparse]

/-- `formatURIParameters` reports no error on a URI that parses. -/
theorem cactus.formatURIParameters_err_of_parse (uriStr : GoString) (u : url.URL)
    (hparse : url.Parse uriStr = .ok u) : (cactus.formatURIParameters uriStr).2 = none := by
  rw [cactus.formatURIParameters_of_parse uriStr u hparse]
  split <;> rfl

/-- The result of `formatURIParameters` on a URI that does not parse. -/
theorem cactus.formatURIParameters_of_error (uriStr : GoString) (err : Error)
    (hparse : url.Parse uriStr = .error err) :
    cactus.formatURIParameters uriStr = ([], some err) := by
  unfold cactus.formatURIParameters
  rw [hparse]

/-- C1: for a URI that parses to a path and a query map, `formatURIParameters`
returns the path alone when the map has no name, and otherwise the path
followed by `?{`, the entries and `}`: one entry `name=[v1,v2,...]` for each
name of the map, the names strictly increasing in byte-wise order (so each
once), the values of a name joined by `,` in the order of appearance of its
pairs in the query, the entries joined by `, `. -/
theorem cactus.formatURIParameters_spec (uriStr : GoString) (u : url.URL)
    (hparse : url.Parse uriStr = .ok u) :
    (u.Query.keys = [] → cactus.formatURIParameters uriStr = (u.Path, none)) ∧
    (u.Query.keys ≠ [] →
      ∃ names : List GoString,
        names.Sorted (fun a b => strLess a b = true) ∧ names.Nodup ∧
        (∀ k, k ∈ names ↔ k ∈ u.Query.keys) ∧
        (∀ k, u.Query.get k = url.valuesOf (url.decodedPairs u.RawQuery) k) ∧
        cactus.formatURIParameters uriStr =
          (u.Path ++ str "?\x7b" ++
            strings.Join (names.map (fun k =>
              k ++ str "=[" ++ strings.Join (u.Query.get k) (str ",") ++ str "]")) (str ", ")
            ++ str "\x7d", none)) := by
  rw [cactus.formatURIParameters_of_parse uriStr u hparse]
  constructor
  · intro h
    have : u.Query.length = 0 := by
      have := congrArg List.length h
      simpa [url.Values.keys] using this
    simp [this]
  · intro h
    have hlen : ¬ u.Query.length = 0 := by
      intro h0
      apply h
      have : u.Query = [] := List.length_eq_zero.mp h0
      rw [this]; rfl
    have hnodup : u.Query.keys.Nodup := (url.Query_WF u).1
    refine ⟨sort.Strings u.Query.keys, sort.Strings_strict _ hnodup,
      (sort.Strings_perm _).nodup_iff.mpr hnodup,
      fun k => (sort.Strings_perm _).mem_iff, fun k => url.Query_get u k, ?_⟩
    simp [hlen]

set_option maxRecDepth 100000 in
/-- C1, on the example of the source: the URI parses, its query has names, and
the formatted URI is the one written in the comment of `formatURIParameters`. -/
theorem cactus.formatURIParameters_spec_witness :
    url.Parse (str "/custody/v1/api/wallets?total_market_order=0&hide_no_coin_wallet=false&coin_names=BTC,LTC&b_id=4a3e2fb40faa4b9d94480559ac01e8de")
      = .ok { Path := str "/custody/v1/api/wallets",
              RawQuery := str "total_market_order=0&hide_no_coin_wallet=false&coin_names=BTC,LTC&b_id=4a3e2fb40faa4b9d94480559ac01e8de" } ∧
    cactus.formatURIParameters (str "/custody/v1/api/wallets?total_market_order=0&hide_no_coin_wallet=false&coin_names=BTC,LTC&b_id=4a3e2fb40faa4b9d94480559ac01e8de")
      = (str "/custody/v1/api/wallets?\x7bb_id=[4a3e2fb40faa4b9d94480559ac01e8de], coin_names=[BTC,LTC], hide_no_coin_wallet=[false], total_market_order=[0]\x7d", none) ∧
    ∃ names : List GoString,
      names.Sorted (fun a b => strLess a b = true) ∧ names.Nodup ∧
      (∀ k, k ∈ names ↔ k ∈ [str "total_market_order", str "hide_no_coin_wallet",
        str "coin_names", str "b_id"]) := by
  have hp : url.Parse (str "/custody/v1/api/wallets?total_market_order=0&hide_no_coin_wallet=false&coin_names=BTC,LTC&b_id=4a3e2fb40faa4b9d94480559ac01e8de")
      = .ok { Path := str "/custody/v1/api/wallets",
              RawQuery := str "total_market_order=0&hide_no_coin_wallet=false&coin_names=BTC,LTC&b_id=4a3e2fb40faa4b9d94480559ac01e8de" } := by
    decide
  refine ⟨hp, by decide, ?_⟩
  obtain ⟨names, h1, h2, h3, _, _⟩ :=
    (cactus.formatURIParameters_spec _ _ hp).2 (by decide)
  exact ⟨names, h1, h2, h3⟩

/-- The canonical string is a function of the formatted URI: equal formatted
URIs give equal canonical strings. -/
theorem cactus.buildContentToSign_congr (uri1 uri2 : GoString)
    (h : cactus.formatURIParameters uri1 = cactus.formatURIParameters uri2)
    (cfg : model.Config) (method date nonce : GoString) (body : Option GoString) :
    cactus.buildContentToSign cfg method uri1 date nonce body =
      cactus.buildContentToSign cfg method uri2 date nonce body := by
  unfold cactus.buildContentToSign
  rw [h]

/-- Two well-formed maps that give every name the same values have the same
keys, up to their order. -/
theorem url.Values.keys_perm (m1 m2 : url.Values) (h1 : m1.WF) (h2 : m2.WF)
    (hq : ∀ k, m1.get k = m2.get k) : m1.keys.Perm m2.keys := by
  rw [List.perm_ext_iff_of_nodup h1.1 h2.1]
  intro k
  rw [url.Values.mem_keys_iff m1 h1, url.Values.mem_keys_iff m2 h2, hq k]

/-- C2: two URIs that parse to the same path and to query maps that give every
name the same ordered list of values have the same formatted URI, whatever
the order of their pairs in the query, and so the same canonical string for
the same method, date, nonce and body. -/
theorem cactus.formatURIParameters_order_invariant (uri1 uri2 : GoString) (u1 u2 : url.URL)
    (hparse1 : url.Parse uri1 = .ok u1) (hparse2 : url.Parse uri2 = .ok u2)
    (hpath : u1.Path = u2.Path) (hq : ∀ k, u1.Query.get k = u2.Query.get k) :
    cactus.formatURIParameters uri1 = cactus.formatURIParameters uri2 ∧
    ∀ (cfg : model.Config) (method date nonce : GoString) (body : Option GoString),
      cactus.buildContentToSign cfg method uri1 date nonce body =
        cactus.buildContentToSign cfg method uri2 date nonce body := by
  have hperm : u1.Query.keys.Perm u2.Query.keys :=
    url.Values.keys_perm _ _ (url.Query_WF u1) (url.Query_WF u2) hq
  have hlen : u1.Query.length = u2.Query.length := by
    have := hperm.length_eq
    simpa [url.Values.keys] using this
  have hfun : (fun k => k ++ str "=[" ++ strings.Join (u1.Query.get k) (str ",") ++ str "]") =
      (fun k => k ++ str "=[" ++ strings.Join (u2.Query.get k) (str ",") ++ str "]") := by
    funext k
    rw [hq k]
  have hfmt : cactus.formatURIParameters uri1 = cactus.formatURIParameters uri2 := by
    rw [cactus.formatURIParameters_of_parse uri1 u1 hparse1,
      cactus.formatURIParameters_of_parse uri2 u2 hparse2,
      hpath, hlen, sort.Strings_congr _ _ hperm, hfun]
  exact ⟨hfmt, fun cfg method date nonce body =>
    cactus.buildContentToSign_congr uri1 uri2 hfmt cfg method date nonce body⟩

set_option maxRecDepth 100000 in
/-- C2, on two orders of the same parameters (`b` keeps its values `1`, `3` in
that order): both URIs parse, to the same path and the same values for every
name, and both have the formatted URI `/p?{a=[2], b=[1,3]}`. -/
theorem cactus.formatURIParameters_order_invariant_witness :
    url.Parse (str "/p?b=1&a=2&b=3") = .ok { Path := str "/p", RawQuery := str "b=1&a=2&b=3" } ∧
    url.Parse (str "/p?a=2&b=1&b=3") = .ok { Path := str "/p", RawQuery := str "a=2&b=1&b=3" } ∧
    cactus.formatURIParameters (str "/p?b=1&a=2&b=3") = (str "/p?\x7ba=[2], b=[1,3]\x7d", none) ∧
    cactus.formatURIParameters (str "/p?b=1&a=2&b=3") =
      cactus.formatURIParameters (str "/p?a=2&b=1&b=3") ∧
    ∀ (cfg : model.Config) (method date nonce : GoString) (body : Option GoString),
      cactus.buildContentToSign cfg method (str "/p?b=1&a=2&b=3") date nonce body =
        cactus.buildContentToSign cfg method (str "/p?a=2&b=1&b=3") date nonce body := by
  have hp1 : url.Parse (str "/p?b=1&a=2&b=3") =
      .ok { Path := str "/p", RawQuery := str "b=1&a=2&b=3" } := by decide
  have hp2 : url.Parse (str "/p?a=2&b=1&b=3") =
      .ok { Path := str "/p", RawQuery := str "a=2&b=1&b=3" } := by decide
  have hq : ∀ k, (url.URL.Query { Path := str "/p", RawQuery := str "b=1&a=2&b=3" }).get k =
      (url.URL.Query { Path := str "/p", RawQuery := str "a=2&b=1&b=3" }).get k := by
    intro k
    have e1 : url.URL.Query { Path := str "/p", RawQuery := str "b=1&a=2&b=3" } =
        [(str "b", [str "1", str "3"]), (str "a", [str "2"])] := by decide
    have e2 : url.URL.Query { Path := str "/p", RawQuery := str "a=2&b=1&b=3" } =
        [(str "a", [str "2"]), (str "b", [str "1", str "3"])] := by decide
    rw [e1, e2]
    by_cases ha : str "a" = k
    · subst ha; decide
    · by_cases hb : str "b" = k
      · subst hb; decide
      · simp [url.Values.get, ha, hb]
  have h := cactus.formatURIParameters_order_invariant _ _ _ _ hp1 hp2 rfl hq
  exact ⟨hp1, hp2, by decide, h.1, h.2⟩

/-! ## The content hash -/

set_option maxRecDepth 100000 in
/-- SHA-256 of the empty message (FIPS 180-4 test value). -/
theorem sha256.Sum256_empty :
    sha256.Sum256 [] =
      [0xe3, 0xb0, 0xc4, 0x42, 0x98, 0xfc, 0x1c, 0x14, 0x9a, 0xfb, 0xf4, 0xc8, 0x99, 0x6f, 0xb9,
       0x24, 0x27, 0xae, 0x41, 0xe4, 0x64, 0x9b, 0x93, 0x4c, 0xa4, 0x95, 0x99, 0x1b, 0x78, 0x52,
       0xb8, 0x55] := by
  decide

set_option maxRecDepth 100000 in
/-- SHA-256 of `abc` (FIPS 180-4 test value, one block). -/
theorem sha256.Sum256_abc :
    sha256.Sum256 (str "abc") =
      [0xba, 0x78, 0x16, 0xbf, 0x8f, 0x01, 0xcf, 0xea, 0x41, 0x41, 0x40, 0xde, 0x5d, 0xae, 0x22,
       0x23, 0xb0, 0x03, 0x61, 0xa3, 0x96, 0x17, 0x7a, 0x9c, 0xb4, 0x10, 0xff, 0x61, 0xf2, 0x00,
       0x15, 0xad] := by
  decide

set_option maxRecDepth 100000 in
/-- SHA-256 of the 56-byte test message of FIPS 180-4 (two blocks). -/
theorem sha256.Sum256_two_blocks :
    sha256.Sum256 (str "abcdbcdecdefdefgefghfghighijhijkijkljklmklmnlmnomnopnopq") =
      [0x24, 0x8d, 0x6a, 0x61, 0xd2, 0x06, 0x38, 0xb8, 0xe5, 0xc0, 0x26, 0x93, 0x0c, 0x3e, 0x60,
       0x39, 0xa3, 0x3c, 0xe4, 0x59, 0x64, 0xff, 0x21, 0x67, 0xf6, 0xec, 0xed, 0xd4, 0x19, 0xdb,
       0x06, 0xc1] := by
  decide

/-- The test values of RFC 4648 for base64. -/
theorem base64.EncodeToString_rfc4648 :
    base64.EncodeToString (str "") = str "" ∧
    base64.EncodeToString (str "f") = str "Zg==" ∧
    base64.EncodeToString (str "fo") = str "Zm8=" ∧
    base64.EncodeToString (str "foo") = str "Zm9v" ∧
    base64.EncodeToString (str "foob") = str "Zm9vYg==" ∧
    base64.EncodeToString (str "fooba") = str "Zm9vYmE=" ∧
    base64.EncodeToString (str "foobar") = str "Zm9vYmFy" := by
  decide

/-- A SHA-256 hash has 32 bytes. -/
theorem sha256.Sum256_length (data : List Nat) : (sha256.Sum256 data).length = 32 := by
  simp [sha256.Sum256, sha256.bigEndian]

/-- The length of a padded base64 text: four characters for every three bytes, rounded up. -/
theorem base64.EncodeToString_length :
    ∀ l : List Nat, (base64.EncodeToString l).length = 4 * ((l.length + 2) / 3)
  | [] => by simp [base64.EncodeToString]
  | [_] => by simp [base64.EncodeToString]
  | [_, _] => by simp [base64.EncodeToString]
  | _ :: _ :: _ :: rest => by
    simp only [base64.EncodeToString, List.length_cons, base64.EncodeToString_length rest]
    omega

theorem base64.enc_mem (v : Nat) : base64.enc v ∈ base64.encodeStd := by
  unfold base64.enc
  have hlen : base64.encodeStd.length = 64 := by decide
  have hlt : v % 64 < base64.encodeStd.length := by rw [hlen]; exact Nat.mod_lt _ (by decide)
  rw [List.getD_eq_getElem _ _ hlt]
  exact List.getElem_mem _

/-- A base64 text has only characters of the standard alphabet and the padding `=`. -/
theorem base64.EncodeToString_alphabet :
    ∀ (l : List Nat) (c : Nat), c ∈ base64.EncodeToString l → c ∈ base64.encodeStd ∨ c = 61
  | [], c, h => by simp [base64.EncodeToString] at h
  | [_], c, h => by
    simp only [base64.EncodeToString, List.mem_cons, List.mem_singleton] at h
    rcases h with h | h | h | h | h
    · exact Or.inl (h ▸ base64.enc_mem _)
    · exact Or.inl (h ▸ base64.enc_mem _)
    · exact Or.inr h
    · exact Or.inr h
    · exact absurd h (List.not_mem_nil _)
  | [_, _], c, h => by
    simp only [base64.EncodeToString, List.mem_cons, List.mem_singleton] at h
    rcases h with h | h | h | h | h
    · exact Or.inl (h ▸ base64.enc_mem _)
    · exact Or.inl (h ▸ base64.enc_mem _)
    · exact Or.inl (h ▸ base64.enc_mem _)
    · exact Or.inr h
    · exact absurd h (List.not_mem_nil _)
  | _ :: _ :: _ :: rest, c, h => by
    simp only [base64.EncodeToString, List.mem_cons] at h
    rcases h with h | h | h | h | h
    · exact Or.inl (h ▸ base64.enc_mem _)
    · exact Or.inl (h ▸ base64.enc_mem _)
    · exact Or.inl (h ▸ base64.enc_mem _)
    · exact Or.inl (h ▸ base64.enc_mem _)
    · exact base64.EncodeToString_alphabet rest c h

/-- The content hash of the nil body and of the empty body. -/
theorem cactus.getContentSha256_nil :
    cactus.getContentSha256 none = str "47DEQpj8HBSa+/TImW+5JCeuQeRkm5NMpJWZG3hSuFU=" ∧
    cactus.getContentSha256 (some []) = str "47DEQpj8HBSa+/TImW+5JCeuQeRkm5NMpJWZG3hSuFU=" := by
  have h : base64.EncodeToString (sha256.Sum256 []) =
      str "47DEQpj8HBSa+/TImW+5JCeuQeRkm5NMpJWZG3hSuFU=" := by
    rw [sha256.Sum256_empty]; decide
  exact ⟨h, h⟩

/-- A content hash is never the empty string. -/
theorem cactus.getContentSha256_ne_nil (body : Option GoString) :
    cactus.getContentSha256 body ≠ [] := by
  intro h
  have := congrArg List.length h
  rw [cactus.getContentSha256, base64.EncodeToString_length, sha256.Sum256_length] at this
  simp at this

/-- C5: `getContentSha256` is a total function of the bytes of the body, the
padded standard-alphabet base64 text of their SHA-256 hash: 44 characters, all
of the alphabet or `=`.  A nil body and an empty body both give
`47DEQpj8HBSa+/TImW+5JCeuQeRkm5NMpJWZG3hSuFU=`. -/
theorem cactus.getContentSha256_spec :
    (∀ body : Option GoString,
      cactus.getContentSha256 body = base64.EncodeToString (sha256.Sum256 (body.getD [])) ∧
      (cactus.getContentSha256 body).length = 44 ∧
      ∀ c ∈ cactus.getContentSha256 body, c ∈ base64.encodeStd ∨ c = 61) ∧
    (∀ b1 b2 : Option GoString, b1.getD [] = b2.getD [] →
      cactus.getContentSha256 b1 = cactus.getContentSha256 b2) ∧
    cactus.getContentSha256 none = cactus.getContentSha256 (some []) ∧
    cactus.getContentSha256 none = str "47DEQpj8HBSa+/TImW+5JCeuQeRkm5NMpJWZG3hSuFU=" := by
  refine ⟨fun body => ⟨rfl, ?_, ?_⟩, ?_, rfl, cactus.getContentSha256_nil.1⟩
  · rw [cactus.getContentSha256, base64.EncodeToString_length, sha256.Sum256_length]
  · exact fun c hc => base64.EncodeToString_alphabet _ c hc
  · intro b1 b2 h
    unfold cactus.getContentSha256
    rw [h]

/-! ## The canonical string -/

/-- The canonical string of a URI whose formatted form is `f`, for `GET`. -/
theorem cactus.canonical_get_of_format (cfg : model.Config)
    (uri date nonce f : GoString) (body : Option GoString)
    (hf : cactus.formatURIParameters uri = (f, none)) :
    cactus.buildContentToSign cfg (str "GET") uri date nonce body =
      (str "GET\napplication/json\n\napplication/json\n" ++ date ++ str "\nx-api-key:" ++
        cfg.API_KEY ++ str "\nx-api-nonce:" ++ nonce ++ str "\n" ++ f, none) := by
  have hlit : str "GET\napplication/json\n\napplication/json\n" =
      str "GET" ++ str "\napplication/json\n\napplication/json\n" := by decide
  unfold cactus.buildContentToSign
  rw [hf, hlit]
  simp [http.MethodGet]

/-- The canonical string of a URI whose formatted form is `f`, for a method
other than `GET`. -/
theorem cactus.canonical_other_of_format (cfg : model.Config)
    (method uri date nonce f : GoString) (body : Option GoString)
    (hf : cactus.formatURIParameters uri = (f, none)) (hmethod : method ≠ str "GET") :
    cactus.buildContentToSign cfg method uri date nonce body =
      (method ++ str "\napplication/json\n" ++
        (if method = str "POST" ∨ method = str "PUT" ∨ method = str "PATCH" then
          cactus.getContentSha256 body else []) ++
        str "\napplication/json\n" ++ date ++ str "\nx-api-key:" ++
        cfg.API_KEY ++ str "\nx-api-nonce:" ++ nonce ++ str "\n" ++ f, none) := by
  unfold cactus.buildContentToSign
  rw [hf]
  have hm : ¬ method = http.MethodGet := hmethod
  simp only [hm, if_false]
  rfl

/-- On a URI that parses, `formatURIParameters` returns its text and no error. -/
theorem cactus.formatURIParameters_pair_of_parse (uriStr : GoString) (u : url.URL)
    (hparse : url.Parse uriStr = .ok u) :
    cactus.formatURIParameters uriStr = ((cactus.formatURIParameters uriStr).1, none) :=
  Prod.ext rfl (cactus.formatURIParameters_err_of_parse uriStr u hparse)

/-- C3: on a URI that parses, `buildContentToSign` with the method `GET`
returns, with no error and whatever the body, the text
`GET\napplication/json\n\napplication/json\n` + date + `\nx-api-key:` + API key +
`\nx-api-nonce:` + nonce + `\n` + formatted URI: eight fields joined by
newlines, the third (the content hash) empty, nothing after the last. -/
theorem cactus.buildContentToSign_get (cfg : model.Config) (uri date nonce : GoString)
    (body : Option GoString) (u : url.URL) (hparse : url.Parse uri = .ok u) :
    cactus.buildContentToSign cfg (str "GET") uri date nonce body =
      (str "GET\napplication/json\n\napplication/json\n" ++ date ++ str "\nx-api-key:" ++
        cfg.API_KEY ++ str "\nx-api-nonce:" ++ nonce ++ str "\n" ++
        (cactus.formatURIParameters uri).1, none) ∧
    (cactus.buildContentToSign cfg (str "GET") uri date nonce body).1 =
      strings.Join [str "GET", str "application/json", str "", str "application/json", date,
        str "x-api-key:" ++ cfg.API_KEY, str "x-api-nonce:" ++ nonce,
        (cactus.formatURIParameters uri).1] (str "\n") := by
  have h := cactus.canonical_get_of_format cfg uri date nonce _ body
    (cactus.formatURIParameters_pair_of_parse uri u hparse)
  refine ⟨h, ?_⟩
  rw [h]
  have hlit : str "GET\napplication/json\n\napplication/json\n" =
      str "GET" ++ (str "\n" ++ (str "application/json" ++ (str "\n" ++ (str "" ++ (str "\n" ++
        (str "application/json" ++ str "\n")))))) := by decide
  have hkey : str "\nx-api-key:" = str "\n" ++ str "x-api-key:" := by decide
  have hnonce : str "\nx-api-nonce:" = str "\n" ++ str "x-api-nonce:" := by decide
  simp only [strings.Join, hlit, hkey, hnonce, List.append_assoc]

set_option maxRecDepth 100000 in
/-- C3, on the example of the source comment, with a body that is not empty. -/
theorem cactus.buildContentToSign_get_witness :
    url.Parse (str "/custody/v1/api/wallets?total_market_order=0&hide_no_coin_wallet=false&coin_names=BTC,LTC&b_id=4a3e2fb40faa4b9d94480559ac01e8de")
      = .ok { Path := str "/custody/v1/api/wallets",
              RawQuery := str "total_market_order=0&hide_no_coin_wallet=false&coin_names=BTC,LTC&b_id=4a3e2fb40faa4b9d94480559ac01e8de" } ∧
    cactus.buildContentToSign
        { URL_PRE := str "https://api.mycactus.dev",
          API_KEY := str "X5SGmgTAoYaVw1t7oD2p82pHgf0eNNVw3wxYGgM2", AK_ID := str "ak" }
        (str "GET")
        (str "/custody/v1/api/wallets?total_market_order=0&hide_no_coin_wallet=false&coin_names=BTC,LTC&b_id=4a3e2fb40faa4b9d94480559ac01e8de")
        (str "Tue, 03 Mar 2020 12:26:57 GMT") (str "36dbe33ed529455cb0638eef0f5f59e3")
        (some (str "\x7b\"ignored\":true\x7d")) =
      (str "GET\napplication/json\n\napplication/json\nTue, 03 Mar 2020 12:26:57 GMT\nx-api-key:X5SGmgTAoYaVw1t7oD2p82pHgf0eNNVw3wxYGgM2\nx-api-nonce:36dbe33ed529455cb0638eef0f5f59e3\n/custody/v1/api/wallets?\x7bb_id=[4a3e2fb40faa4b9d94480559ac01e8de], coin_names=[BTC,LTC], hide_no_coin_wallet=[false], total_market_order=[0]\x7d",
        none) := by
  have hp : url.Parse (str "/custody/v1/api/wallets?total_market_order=0&hide_no_coin_wallet=false&coin_names=BTC,LTC&b_id=4a3e2fb40faa4b9d94480559ac01e8de")
      = .ok { Path := str "/custody/v1/api/wallets",
              RawQuery := str "total_market_order=0&hide_no_coin_wallet=false&coin_names=BTC,LTC&b_id=4a3e2fb40faa4b9d94480559ac01e8de" } := by
    decide
  refine ⟨hp, ?_⟩
  rw [(cactus.buildContentToSign_get _ _ _ _ _ _ hp).1]
  decide

/-- C4: on a URI that parses and for a method other than `GET`,
`buildContentToSign` returns, with no error, method + `\napplication/json\n` +
H + `\napplication/json\n` + date + `\nx-api-key:` + API key + `\nx-api-nonce:` +
nonce + `\n` + formatted URI, where H is `getContentSha256(body)` when the
method is `POST`, `PUT` or `PATCH` and empty for any other method.  The hash of
a nil or empty body is the hash of zero bytes, which is not empty. -/
theorem cactus.buildContentToSign_other (cfg : model.Config) (method uri date nonce : GoString)
    (body : Option GoString) (u : url.URL) (hparse : url.Parse uri = .ok u)
    (hmethod : method ≠ str "GET") :
    ((method = str "POST" ∨ method = str "PUT" ∨ method = str "PATCH") →
      cactus.buildContentToSign cfg method uri date nonce body =
        (method ++ str "\napplication/json\n" ++ cactus.getContentSha256 body ++
          str "\napplication/json\n" ++ date ++ str "\nx-api-key:" ++ cfg.API_KEY ++
          str "\nx-api-nonce:" ++ nonce ++ str "\n" ++ (cactus.formatURIParameters uri).1,
          none)) ∧
    (¬ (method = str "POST" ∨ method = str "PUT" ∨ method = str "PATCH") →
      cactus.buildContentToSign cfg method uri date nonce body =
        (method ++ str "\napplication/json\n" ++ str "" ++
          str "\napplication/json\n" ++ date ++ str "\nx-api-key:" ++ cfg.API_KEY ++
          str "\nx-api-nonce:" ++ nonce ++ str "\n" ++ (cactus.formatURIParameters uri).1,
          none)) ∧
    cactus.getContentSha256 none = cactus.getContentSha256 (some []) ∧
    cactus.getContentSha256 (some []) = base64.EncodeToString (sha256.Sum256 []) ∧
    cactus.getContentSha256 (some []) ≠ str "" := by
  have h := cactus.canonical_other_of_format cfg method uri date nonce _ body
    (cactus.formatURIParameters_pair_of_parse uri u hparse) hmethod
  refine ⟨fun hm => ?_, fun hm => ?_, rfl, rfl, cactus.getContentSha256_ne_nil _⟩
  · rw [h, if_pos hm]
  · rw [h, if_neg hm]; rfl

set_option maxRecDepth 100000 in
/-- C4, on a `POST` with the body `{}` and on a `DELETE`. -/
theorem cactus.buildContentToSign_other_witness :
    url.Parse (str "/p?b=1&a=2") = .ok { Path := str "/p", RawQuery := str "b=1&a=2" } ∧
    str "POST" ≠ str "GET" ∧ str "DELETE" ≠ str "GET" ∧
    cactus.buildContentToSign
        { URL_PRE := str "https://api.mycactus.dev", API_KEY := str "KEY", AK_ID := str "ak" }
        (str "POST") (str "/p?b=1&a=2") (str "Tue, 03 Mar 2020 12:26:57 GMT") (str "n1")
        (some (str "\x7b\x7d")) =
      (str "POST\napplication/json\nRBNvo1WzZ4oRRq0W9+hknpT7T8If536DEMBg9hyq/4o=\napplication/json\nTue, 03 Mar 2020 12:26:57 GMT\nx-api-key:KEY\nx-api-nonce:n1\n/p?\x7ba=[2], b=[1]\x7d",
        none) ∧
    cactus.buildContentToSign
        { URL_PRE := str "https://api.mycactus.dev", API_KEY := str "KEY", AK_ID := str "ak" }
        (str "DELETE") (str "/p?b=1&a=2") (str "Tue, 03 Mar 2020 12:26:57 GMT") (str "n1")
        (some (str "\x7b\x7d")) =
      (str "DELETE\napplication/json\n\napplication/json\nTue, 03 Mar 2020 12:26:57 GMT\nx-api-key:KEY\nx-api-nonce:n1\n/p?\x7ba=[2], b=[1]\x7d",
        none) := by
  have hp : url.Parse (str "/p?b=1&a=2") = .ok { Path := str "/p", RawQuery := str "b=1&a=2" } := by
    decide
  refine ⟨hp, by decide, by decide, ?_, ?_⟩
  · rw [(cactus.buildContentToSign_other _ _ _ _ _ _ _ hp (by decide)).1 (Or.inl rfl)]
    decide
  · rw [(cactus.buildContentToSign_other _ _ _ _ _ _ _ hp (by decide)).2.1 (by decide)]
    decide

/-! ## The Authorization value -/

/-- C7: `buildAuthorization(sig)` is the text `api ` + key identifier + `:` +
signature, for every signature: the result starts with `api ` + key
identifier + `:` and what follows that prefix is the signature, unchanged. -/
theorem cactus.buildAuthorization_spec (cfg : model.Config) (sign : GoString) :
    cactus.buildAuthorization cfg sign = str "api " ++ cfg.AK_ID ++ str ":" ++ sign ∧
    (str "api " ++ cfg.AK_ID ++ str ":") <+: cactus.buildAuthorization cfg sign ∧
    (cactus.buildAuthorization cfg sign).drop (str "api " ++ cfg.AK_ID ++ str ":").length = sign := by
  refine ⟨rfl, ⟨sign, rfl⟩, ?_⟩
  unfold cactus.buildAuthorization
  rw [List.drop_left]

/-! ## The assembled request -/

/-- A new request has an empty header and the bytes of the body it was given. -/
theorem http.NewRequest_ok (method urlStr : GoString) (body : Option GoString)
    (r : http.Request) (h : http.NewRequest method urlStr body = .ok r) :
    r.Header = [] ∧ r.Body = body.getD [] := by
  unfold http.NewRequest at h
  simp only [] at h
  repeat' split at h
  all_goals first | (cases h; exact ⟨rfl, rfl⟩) | cases h

/-- The common headers, read back. -/
theorem cactus.commonHeaders_get (cfg : model.Config) (nonce date auth : GoString) :
    (cactus.commonHeaders cfg nonce date auth).Get (str "x-api-key") = cfg.API_KEY ∧
    (cactus.commonHeaders cfg nonce date auth).Get (str "x-api-nonce") = nonce ∧
    (cactus.commonHeaders cfg nonce date auth).Get (str "Date") = date ∧
    (cactus.commonHeaders cfg nonce date auth).Get (str "Authorization") = auth ∧
    (cactus.commonHeaders cfg nonce date auth).Get (str "Content-SHA256") = [] ∧
    (cactus.commonHeaders cfg nonce date auth).Has (str "Content-SHA256") = false :=
  ⟨rfl, rfl, rfl, rfl, rfl, rfl⟩

/-- The common headers with `Content-SHA256` set, read back. -/
theorem cactus.commonHeaders_set_get (cfg : model.Config) (nonce date auth sha : GoString) :
    ((cactus.commonHeaders cfg nonce date auth).Set (str "Content-SHA256") sha).Get
      (str "x-api-key") = cfg.API_KEY ∧
    ((cactus.commonHeaders cfg nonce date auth).Set (str "Content-SHA256") sha).Get
      (str "x-api-nonce") = nonce ∧
    ((cactus.commonHeaders cfg nonce date auth).Set (str "Content-SHA256") sha).Get
      (str "Date") = date ∧
    ((cactus.commonHeaders cfg nonce date auth).Set (str "Content-SHA256") sha).Get
      (str "Authorization") = auth ∧
    ((cactus.commonHeaders cfg nonce date auth).Set (str "Content-SHA256") sha).Get
      (str "Content-SHA256") = sha ∧
    ((cactus.commonHeaders cfg nonce date auth).Set (str "Content-SHA256") sha).Has
      (str "Content-SHA256") = true :=
  ⟨rfl, rfl, rfl, rfl, rfl, rfl⟩

/-- What is known when `buildRequest` has sent a request: the canonical string
was built without error and signed, it is the only text signed, and the
request carries the body and the headers set by the code. -/
theorem cactus.buildRequest_sent (cfg : model.Config) (c : cactus.ClientImpl) (env : cactus.Env)
    (method uri : GoString) (body : Option GoString) (req : http.Request)
    (hsent : cactus.Event.sent req ∈
      (cactus.ClientImpl.buildRequest cfg c env method uri body).events) :
    ∃ signContent sign,
      cactus.buildContentToSign cfg method uri env.date env.nonce body = (signContent, none) ∧
      c.Sign env signContent = some sign ∧
      (∀ content, cactus.Event.signed content ∈
        (cactus.ClientImpl.buildRequest cfg c env method uri body).events ↔
          content = signContent) ∧
      req.Body = body.getD [] ∧
      req.Header = cactus.requestHeaders cfg method env.nonce env.date
        (cactus.buildAuthorization cfg sign) body := by
  unfold cactus.ClientImpl.buildRequest at hsent ⊢
  simp only [] at hsent ⊢
  split at hsent
  · simp at hsent
  · rename_i signContent hb
    split at hsent
    · simp at hsent
    · rename_i sign hs
      split at hsent
      · simp at hsent
      · rename_i r0 hr
        obtain ⟨hh, hbody⟩ := http.NewRequest_ok _ _ _ _ hr
        simp only [hb, hs, hr]
        refine ⟨signContent, sign, rfl, hs, ?_, ?_⟩
        · intro content
          split
          · simp
          · split <;> simp
        · rw [hh] at hsent
          unfold cactus.requestHeaders
          by_cases hm : method = http.MethodPost ∨ method = http.MethodPut ∨
              method = http.MethodPatch
          · simp only [if_pos hm] at hsent ⊢
            split at hsent
            · simp at hsent; subst hsent; exact ⟨hbody, rfl⟩
            · split at hsent <;> (simp at hsent; subst hsent; exact ⟨hbody, rfl⟩)
          · simp only [if_neg hm] at hsent ⊢
            split at hsent
            · simp at hsent; subst hsent; exact ⟨hbody, rfl⟩
            · split at hsent <;> (simp at hsent; subst hsent; exact ⟨hbody, rfl⟩)

/-- The headers of a request, read back. -/
theorem cactus.requestHeaders_get (cfg : model.Config) (method nonce date auth : GoString)
    (body : Option GoString) :
    (cactus.requestHeaders cfg method nonce date auth body).Get (str "x-api-key") = cfg.API_KEY ∧
    (cactus.requestHeaders cfg method nonce date auth body).Get (str "x-api-nonce") = nonce ∧
    (cactus.requestHeaders cfg method nonce date auth body).Get (str "Date") = date ∧
    (cactus.requestHeaders cfg method nonce date auth body).Get (str "Authorization") = auth := by
  unfold cactus.requestHeaders
  split
  · have h := cactus.commonHeaders_set_get cfg nonce date auth (cactus.getContentSha256 body)
    exact ⟨h.1, h.2.1, h.2.2.1, h.2.2.2.1⟩
  · have h := cactus.commonHeaders_get cfg nonce date auth
    exact ⟨h.1, h.2.1, h.2.2.1, h.2.2.2.1⟩

/-- The `Content-SHA256` header of a request: present for `POST`, `PUT` and
`PATCH` only, with the hash of the body. -/
theorem cactus.requestHeaders_sha (cfg : model.Config) (method nonce date auth : GoString)
    (body : Option GoString) :
    ((cactus.requestHeaders cfg method nonce date auth body).Has (str "Content-SHA256") = true ↔
      (method = str "POST" ∨ method = str "PUT" ∨ method = str "PATCH")) ∧
    ((method = str "POST" ∨ method = str "PUT" ∨ method = str "PATCH") →
      (cactus.requestHeaders cfg method nonce date auth body).Get (str "Content-SHA256") =
        cactus.getContentSha256 body) := by
  unfold cactus.requestHeaders
  by_cases hm : method = http.MethodPost ∨ method = http.MethodPut ∨ method = http.MethodPatch
  · have h := cactus.commonHeaders_set_get cfg nonce date auth (cactus.getContentSha256 body)
    rw [if_pos hm]
    exact ⟨⟨fun _ => hm, fun _ => h.2.2.2.2.2⟩, fun _ => h.2.2.2.2.1⟩
  · have h := cactus.commonHeaders_get cfg nonce date auth
    rw [if_neg hm]
    refine ⟨⟨fun hc => ?_, fun hc => absurd hc hm⟩, fun hc => absurd hc hm⟩
    rw [h.2.2.2.2.2] at hc
    cases hc

/-- A canonical string is returned without error only when the URI was formatted
without error. -/
theorem cactus.buildContentToSign_ok_format (cfg : model.Config)
    (method uri date nonce content : GoString) (body : Option GoString)
    (h : cactus.buildContentToSign cfg method uri date nonce body = (content, none)) :
    cactus.formatURIParameters uri = ((cactus.formatURIParameters uri).1, none) := by
  unfold cactus.buildContentToSign at h
  cases hf : cactus.formatURIParameters uri with
  | mk f e =>
    cases e with
    | none => rfl
    | some err => rw [hf] at h; simp at h

/-- The canonical string for any method, with its content-hash field `H`. -/
theorem cactus.buildContentToSign_shape (cfg : model.Config)
    (method uri date nonce f : GoString) (body : Option GoString)
    (hf : cactus.formatURIParameters uri = (f, none)) :
    ∃ H, ((method = str "POST" ∨ method = str "PUT" ∨ method = str "PATCH") →
        H = cactus.getContentSha256 body) ∧
      cactus.buildContentToSign cfg method uri date nonce body =
        (method ++ str "\napplication/json\n" ++ H ++ str "\napplication/json\n" ++ date ++
          str "\nx-api-key:" ++ cfg.API_KEY ++ str "\nx-api-nonce:" ++ nonce ++ str "\n" ++ f,
          none) := by
  by_cases hg : method = str "GET"
  · subst hg
    refine ⟨[], fun h => ?_, ?_⟩
    · rcases h with h | h | h <;> exact absurd h (by decide)
    · rw [cactus.canonical_get_of_format cfg uri date nonce f body hf]
      have hlit : str "GET\napplication/json\n\napplication/json\n" =
          str "GET" ++ str "\napplication/json\n" ++ [] ++ str "\napplication/json\n" := by decide
      rw [hlit]
  · refine ⟨_, fun h => ?_,
      cactus.canonical_other_of_format cfg method uri date nonce f body hf hg⟩
    rw [if_pos h]

/-- C6: a request that `buildRequest` sends has the `Content-SHA256` header
exactly when the method is `POST`, `PUT` or `PATCH`; its value is then the
base64 text of the SHA-256 hash of the bytes of the request body, and the
content-hash field of the canonical string that was signed is that same
value.  A `POST` with an empty body carries the hash of zero bytes, which is
not empty. -/
theorem cactus.buildRequest_content_sha256 (cfg : model.Config) (c : cactus.ClientImpl)
    (env : cactus.Env) (method uri : GoString) (body : Option GoString) (req : http.Request)
    (hsent : cactus.Event.sent req ∈
      (cactus.ClientImpl.buildRequest cfg c env method uri body).events) :
    (req.Header.Has (str "Content-SHA256") = true ↔
      (method = str "POST" ∨ method = str "PUT" ∨ method = str "PATCH")) ∧
    req.Body = body.getD [] ∧
    ((method = str "POST" ∨ method = str "PUT" ∨ method = str "PATCH") →
      req.Header.Get (str "Content-SHA256") = base64.EncodeToString (sha256.Sum256 req.Body) ∧
      ∃ rest, ∀ content, cactus.Event.signed content ∈
          (cactus.ClientImpl.buildRequest cfg c env method uri body).events ↔
        content = method ++ str "\napplication/json\n" ++ req.Header.Get (str "Content-SHA256") ++
          str "\napplication/json\n" ++ rest) ∧
    (method = str "POST" → req.Body = [] →
      req.Header.Get (str "Content-SHA256") = str "47DEQpj8HBSa+/TImW+5JCeuQeRkm5NMpJWZG3hSuFU=" ∧
      req.Header.Get (str "Content-SHA256") ≠ str "") := by
  obtain ⟨signContent, sign, hb, _, hsigned, hbody, hheader⟩ :=
    cactus.buildRequest_sent cfg c env method uri body req hsent
  have hsha := cactus.requestHeaders_sha cfg method env.nonce env.date
    (cactus.buildAuthorization cfg sign) body
  rw [← hheader] at hsha
  have hval : (method = str "POST" ∨ method = str "PUT" ∨ method = str "PATCH") →
      req.Header.Get (str "Content-SHA256") = base64.EncodeToString (sha256.Sum256 req.Body) := by
    intro hm
    rw [hsha.2 hm, hbody]
    rfl
  refine ⟨hsha.1, hbody, fun hm => ⟨hval hm, ?_⟩, fun hpost hempty => ?_⟩
  · obtain ⟨H, hH, hshape⟩ := cactus.buildContentToSign_shape cfg method uri env.date env.nonce
      _ body (cactus.buildContentToSign_ok_format cfg method uri _ _ _ body hb)
    rw [hb] at hshape
    have hsc : signContent = _ := congrArg Prod.fst hshape
    refine ⟨env.date ++ str "\nx-api-key:" ++ cfg.API_KEY ++ str "\nx-api-nonce:" ++ env.nonce ++
      str "\n" ++ (cactus.formatURIParameters uri).1, fun content => ?_⟩
    rw [hsigned content, hsc, hH hm, hsha.2 hm]
    simp only [List.append_assoc]
  · have h := hval (Or.inl hpost)
    rw [hempty] at h
    have hv : req.Header.Get (str "Content-SHA256") =
        str "47DEQpj8HBSa+/TImW+5JCeuQeRkm5NMpJWZG3hSuFU=" := h.trans cactus.getContentSha256_nil.2
    exact ⟨hv, by rw [hv]; decide⟩

set_option maxRecDepth 100000 in
/-- C6, on a `POST` with an empty body in the sample environment: the request is
sent, it has the header, and the header has the hash of zero bytes. -/
theorem cactus.buildRequest_content_sha256_witness :
    cactus.Event.sent cactus.sampleRequest ∈
      (cactus.ClientImpl.buildRequest cactus.sampleConfig cactus.sampleClient cactus.sampleEnv
        (str "POST") (str "/p?b=1&a=2") (some [])).events ∧
    cactus.sampleRequest.Header.Has (str "Content-SHA256") = true ∧
    cactus.sampleRequest.Header.Get (str "Content-SHA256") =
      str "47DEQpj8HBSa+/TImW+5JCeuQeRkm5NMpJWZG3hSuFU=" := by
  have hsent : cactus.Event.sent cactus.sampleRequest ∈
      (cactus.ClientImpl.buildRequest cactus.sampleConfig cactus.sampleClient cactus.sampleEnv
        (str "POST") (str "/p?b=1&a=2") (some [])).events := by decide
  have h := cactus.buildRequest_content_sha256 _ _ _ _ _ _ _ hsent
  exact ⟨hsent, h.1.mpr (Or.inl rfl), (h.2.2.2 rfl rfl).1⟩

/-- C8: for a request that `buildRequest` sends, the one text that was signed is
the canonical string built from the values of the `Date` and `x-api-nonce`
headers of that request: they are the date and the nonce embedded in it, and
the `x-api-key` header is the configured key, embedded after `x-api-key:`. -/
theorem cactus.buildRequest_date_nonce (cfg : model.Config) (c : cactus.ClientImpl)
    (env : cactus.Env) (method uri : GoString) (body : Option GoString) (req : http.Request)
    (hsent : cactus.Event.sent req ∈
      (cactus.ClientImpl.buildRequest cfg c env method uri body).events) :
    (∀ content, cactus.Event.signed content ∈
        (cactus.ClientImpl.buildRequest cfg c env method uri body).events ↔
      content = (cactus.buildContentToSign cfg method uri (req.Header.Get (str "Date"))
        (req.Header.Get (str "x-api-nonce")) body).1) ∧
    req.Header.Get (str "x-api-key") = cfg.API_KEY ∧
    ∃ H, ∀ content, cactus.Event.signed content ∈
        (cactus.ClientImpl.buildRequest cfg c env method uri body).events ↔
      content = method ++ str "\napplication/json\n" ++ H ++ str "\napplication/json\n" ++
        req.Header.Get (str "Date") ++ str "\nx-api-key:" ++ req.Header.Get (str "x-api-key") ++
        str "\nx-api-nonce:" ++ req.Header.Get (str "x-api-nonce") ++ str "\n" ++
        (cactus.formatURIParameters uri).1 := by
  obtain ⟨signContent, sign, hb, _, hsigned, _, hheader⟩ :=
    cactus.buildRequest_sent cfg c env method uri body req hsent
  obtain ⟨hkey, hnonce, hdate, _⟩ := cactus.requestHeaders_get cfg method env.nonce env.date
    (cactus.buildAuthorization cfg sign) body
  rw [← hheader] at hkey hnonce hdate
  rw [hkey, hnonce, hdate]
  refine ⟨fun content => ?_, rfl, ?_⟩
  · rw [hsigned content, hb]
  · obtain ⟨H, _, hshape⟩ := cactus.buildContentToSign_shape cfg method uri env.date env.nonce
      _ body (cactus.buildContentToSign_ok_format cfg method uri _ _ _ body hb)
    rw [hb] at hshape
    have hsc : signContent = _ := congrArg Prod.fst hshape
    exact ⟨H, fun content => by rw [hsigned content, hsc]⟩

set_option maxRecDepth 100000 in
/-- C8, on the sample request: it is sent with the date and the nonce of the
environment, and the text signed has that date and that nonce. -/
theorem cactus.buildRequest_date_nonce_witness :
    cactus.Event.sent cactus.sampleRequest ∈
      (cactus.ClientImpl.buildRequest cactus.sampleConfig cactus.sampleClient cactus.sampleEnv
        (str "POST") (str "/p?b=1&a=2") (some [])).events ∧
    cactus.sampleRequest.Header.Get (str "Date") = str "Tue, 03 Mar 2020 12:26:57 GMT" ∧
    cactus.sampleRequest.Header.Get (str "x-api-nonce") = str "n1" ∧
    cactus.sampleRequest.Header.Get (str "x-api-key") = str "KEY" ∧
    cactus.Event.signed (str "POST\napplication/json\n47DEQpj8HBSa+/TImW+5JCeuQeRkm5NMpJWZG3hSuFU=\napplication/json\nTue, 03 Mar 2020 12:26:57 GMT\nx-api-key:KEY\nx-api-nonce:n1\n/p?\x7ba=[2], b=[1]\x7d") ∈
      (cactus.ClientImpl.buildRequest cactus.sampleConfig cactus.sampleClient cactus.sampleEnv
        (str "POST") (str "/p?b=1&a=2") (some [])).events := by
  have hsent : cactus.Event.sent cactus.sampleRequest ∈
      (cactus.ClientImpl.buildRequest cactus.sampleConfig cactus.sampleClient cactus.sampleEnv
        (str "POST") (str "/p?b=1&a=2") (some [])).events := by decide
  have h := cactus.buildRequest_date_nonce _ _ _ _ _ _ _ hsent
  exact ⟨hsent, by decide, by decide, h.2.1, (h.1 _).mpr (by decide)⟩

/-! ## Errors of parsing -/

/-- The canonical string of a URI that is not formatted: the error of the
formatting and the empty string. -/
theorem cactus.buildContentToSign_of_error (cfg : model.Config)
    (method uri date nonce : GoString) (body : Option GoString) (err : Error)
    (h : cactus.formatURIParameters uri = ([], some err)) :
    cactus.buildContentToSign cfg method uri date nonce body = ([], some err) := by
  unfold cactus.buildContentToSign
  rw [h]

/-- C9: for a URI that `url.Parse` rejects, `formatURIParameters` and
`buildContentToSign` return the error of `url.Parse` next to the empty string,
for every method, date, nonce and body, and `buildRequest` returns a nil body
and that error with no event: nothing is signed, nothing is sent. -/
theorem cactus.parse_error_surfaces (uri : GoString) (err : Error)
    (hparse : url.Parse uri = .error err) :
    cactus.formatURIParameters uri = (str "", some err) ∧
    (∀ (cfg : model.Config) (method date nonce : GoString) (body : Option GoString),
      cactus.buildContentToSign cfg method uri date nonce body = (str "", some err)) ∧
    (∀ (cfg : model.Config) (c : cactus.ClientImpl) (env : cactus.Env) (method : GoString)
        (body : Option GoString),
      cactus.ClientImpl.buildRequest cfg c env method uri body =
        { events := [], outcome := .returned none (some err) }) := by
  have hf := cactus.formatURIParameters_of_error uri err hparse
  refine ⟨hf, fun cfg method date nonce body =>
    cactus.buildContentToSign_of_error cfg method uri date nonce body err hf, ?_⟩
  intro cfg c env method body
  unfold cactus.ClientImpl.buildRequest
  simp only []
  rw [cactus.buildContentToSign_of_error cfg method uri env.date env.nonce body err hf]

set_option maxRecDepth 100000 in
/-- C9, on a path with an invalid escape. -/
theorem cactus.parse_error_surfaces_witness :
    url.Parse (str "/p%zz?a=1") =
      .error (Error.urlError "parse" (str "/p%zz?a=1") (Error.EscapeError (str "%zz"))) ∧
    cactus.formatURIParameters (str "/p%zz?a=1") =
      (str "", some (Error.urlError "parse" (str "/p%zz?a=1") (Error.EscapeError (str "%zz")))) ∧
    cactus.ClientImpl.buildRequest cactus.sampleConfig cactus.sampleClient cactus.sampleEnv
        (str "POST") (str "/p%zz?a=1") (some []) =
      { events := [],
        outcome := .returned none
          (some (Error.urlError "parse" (str "/p%zz?a=1") (Error.EscapeError (str "%zz")))) } := by
  have hp : url.Parse (str "/p%zz?a=1") =
      .error (Error.urlError "parse" (str "/p%zz?a=1") (Error.EscapeError (str "%zz"))) := by
    decide
  have h := cactus.parse_error_surfaces _ _ hp
  exact ⟨hp, h.1, h.2.2 _ _ _ _ _⟩

set_option maxRecDepth 100000 in
/-- C10 fails on `/p?a=%zz&b=1`: the path parses, the query has the invalid
escape `%zz` (`url.QueryUnescape` and `url.ParseQuery` report it), and yet
`formatURIParameters` returns the formatted URI `/p?{b=[1]}` with a nil error
and `buildContentToSign` returns a canonical string with a nil error. -/
theorem cactus.malformed_query_is_formatted :
    url.Parse (str "/p?a=%zz&b=1") = .ok { Path := str "/p", RawQuery := str "a=%zz&b=1" } ∧
    url.QueryUnescape (str "%zz") = .error (Error.EscapeError (str "%zz")) ∧
    (url.ParseQuery (str "a=%zz&b=1")).2 = some (Error.EscapeError (str "%zz")) ∧
    cactus.formatURIParameters (str "/p?a=%zz&b=1") = (str "/p?\x7bb=[1]\x7d", none) ∧
    cactus.buildContentToSign cactus.sampleConfig (str "GET") (str "/p?a=%zz&b=1")
        (str "Tue, 03 Mar 2020 12:26:57 GMT") (str "n1") none =
      (str "GET\napplication/json\n\napplication/json\nTue, 03 Mar 2020 12:26:57 GMT\nx-api-key:KEY\nx-api-nonce:n1\n/p?\x7bb=[1]\x7d",
        none) := by
  decide

/-- A segment of a query with a semicolon, or with an invalid escape in its
name or in its value, has no pair. -/
theorem url.decodePair_malformed (seg : GoString)
    (h : strings.Contains seg 59 = true ∨
      (∃ e, url.QueryUnescape (strings.Cut seg 61).1 = .error e) ∨
      (∃ e, url.QueryUnescape (strings.Cut seg 61).2.1 = .error e)) :
    url.decodePair seg = none := by
  unfold url.decodePair
  rcases h with h | ⟨e, h⟩ | ⟨e, h⟩
  · simp [h]
  · rw [h]; split <;> [rfl; (split <;> rfl)]
  · rw [h]
    split
    · rfl
    · split
      · rfl
      · cases url.QueryUnescape (strings.Cut seg 61).1 <;> rfl

/-- No error is reported with the canonical string of a URI that parses. -/
theorem cactus.buildContentToSign_err_of_parse (cfg : model.Config)
    (method uri date nonce : GoString) (body : Option GoString) (u : url.URL)
    (hparse : url.Parse uri = .ok u) :
    (cactus.buildContentToSign cfg method uri date nonce body).2 = none := by
  obtain ⟨H, _, h⟩ := cactus.buildContentToSign_shape cfg method uri date nonce _ body
    (cactus.formatURIParameters_pair_of_parse uri u hparse)
  rw [h]

/-- C10, amended: for every URI that `url.Parse` accepts, whatever its query,
`formatURIParameters` returns a formatted URI with a nil error and
`buildContentToSign` a canonical string with a nil error.  `url.Parse` does
not look into the query, and `u.Query()` drops the error of `ParseQuery`: the
map has the pairs of the segments that decode, and a segment with a semicolon
or an invalid escape contributes nothing. -/
theorem cactus.malformed_query_pairs_dropped (uri : GoString) (u : url.URL)
    (hparse : url.Parse uri = .ok u) :
    (cactus.formatURIParameters uri).2 = none ∧
    (∀ (cfg : model.Config) (method date nonce : GoString) (body : Option GoString),
      (cactus.buildContentToSign cfg method uri date nonce body).2 = none) ∧
    (∀ k, u.Query.get k = url.valuesOf (url.decodedPairs u.RawQuery) k) ∧
    (∀ k, k ∈ u.Query.keys ↔ ∃ v, (k, v) ∈ url.decodedPairs u.RawQuery) ∧
    url.decodedPairs u.RawQuery = (strings.Split u.RawQuery 38).filterMap url.decodePair ∧
    (∀ seg, (strings.Contains seg 59 = true ∨
        (∃ e, url.QueryUnescape (strings.Cut seg 61).1 = .error e) ∨
        (∃ e, url.QueryUnescape (strings.Cut seg 61).2.1 = .error e)) →
      url.decodePair seg = none) :=
  ⟨cactus.formatURIParameters_err_of_parse uri u hparse,
    fun cfg method date nonce body =>
      cactus.buildContentToSign_err_of_parse cfg method uri date nonce body u hparse,
    fun k => url.Query_get u k, fun k => url.Query_mem_keys u k, rfl,
    fun seg h => url.decodePair_malformed seg h⟩

set_option maxRecDepth 100000 in
/-- C10, amended, on `/p?a=%zz&b=1`: no error, and the only pair is `b=1`. -/
theorem cactus.malformed_query_pairs_dropped_witness :
    url.Parse (str "/p?a=%zz&b=1") = .ok { Path := str "/p", RawQuery := str "a=%zz&b=1" } ∧
    (cactus.formatURIParameters (str "/p?a=%zz&b=1")).2 = none ∧
    url.decodedPairs (str "a=%zz&b=1") = [(str "b", str "1")] ∧
    url.decodePair (str "a=%zz") = none := by
  have hp : url.Parse (str "/p?a=%zz&b=1") =
      .ok { Path := str "/p", RawQuery := str "a=%zz&b=1" } := by decide
  have h := cactus.malformed_query_pairs_dropped _ _ hp
  have hv : url.QueryUnescape (strings.Cut (str "a=%zz") 61).2.1 =
      .error (Error.EscapeError (str "%zz")) := by decide
  exact ⟨hp, h.1, by decide, h.2.2.2.2.2 _ (Or.inr (Or.inr ⟨_, hv⟩))⟩

/-! ## The retrying transport -/

theorem httpclient.countAttempts_append (a b : List httpclient.Event) :
    httpclient.countAttempts (a ++ b) = httpclient.countAttempts a + httpclient.countAttempts b := by
  induction a with
  | nil => simp [httpclient.countAttempts]
  | cons e rest ih =>
    cases e with
    | attempt n r =>
      show httpclient.countAttempts (rest ++ b) + 1 = httpclient.countAttempts rest + 1 + _
      omega
    | closed r => exact ih
    | wait d => exact ih

theorem httpclient.countAttempts_closeBody (resp : Option http.Response) :
    httpclient.countAttempts (httpclient.closeBody resp) = 0 := by
  cases resp <;> rfl

/-- One call of `operation` makes one physical attempt. -/
theorem httpclient.operation_attempts (w : httpclient.World) (req : http.Request) (n : Nat)
    (resp : Option http.Response) :
    httpclient.countAttempts (httpclient.operation w req n resp).events = 1 := by
  unfold httpclient.operation
  simp only []
  split
  · simp [httpclient.countAttempts_append, httpclient.countAttempts_closeBody,
      httpclient.countAttempts]
  · split <;>
      simp [httpclient.countAttempts_append, httpclient.countAttempts_closeBody,
        httpclient.countAttempts]

/-- What `operation` leaves in `resp` and `err` does not depend on the response
of the attempt before. -/
theorem httpclient.operation_result (w : httpclient.World) (req : http.Request) (n : Nat)
    (resp : Option http.Response) :
    (httpclient.operation w req n resp).resp = (httpclient.operation w req n none).resp ∧
    (httpclient.operation w req n resp).err = (httpclient.operation w req n none).err := by
  unfold httpclient.operation
  simp only []
  split
  · exact ⟨rfl, rfl⟩
  · split <;> exact ⟨rfl, rfl⟩

/-- The retry loop started at attempt `n` with `left` retries ends at an attempt
`m` between `n` and `n + left`: it has made the attempts `n` to `m`, its results
are those of attempt `m`, every attempt before `m` failed without the backoff
stopping, and attempt `m` succeeded, or was the last one allowed, or made the
backoff stop. -/
theorem httpclient.retry_spec (c : httpclient.HTTPClient) (w : httpclient.World)
    (req : http.Request) :
    ∀ (left n : Nat) (resp : Option http.Response),
      ∃ m, n ≤ m ∧ m ≤ n + left ∧
        (httpclient.retry c w req left n resp).attempts + n = m + 1 ∧
        (httpclient.retry c w req left n resp).resp = (httpclient.operation w req m none).resp ∧
        (httpclient.retry c w req left n resp).err = (httpclient.operation w req m none).err ∧
        (∀ j, n ≤ j → j < m →
          (httpclient.operation w req j none).err ≠ none ∧
          backoff.exponentialNext c.maxWaitTime (w.elapsed j) (w.interval j) ≠ none) ∧
        ((httpclient.operation w req m none).err = none ∨ m = n + left ∨
          backoff.exponentialNext c.maxWaitTime (w.elapsed m) (w.interval m) = none) := by
  intro left
  induction left with
  | zero =>
    intro n resp
    refine ⟨n, le_refl _, le_refl _, ?_, ?_, ?_, ?_, Or.inr (Or.inl rfl)⟩
    · simp [httpclient.retry, httpclient.Run.attempts, httpclient.operation_attempts]; omega
    · exact (httpclient.operation_result w req n resp).1
    · exact (httpclient.operation_result w req n resp).2
    · intro j h1 h2; omega
  | succ left ih =>
    intro n resp
    have hres := httpclient.operation_result w req n resp
    unfold httpclient.retry
    simp only []
    cases herr : (httpclient.operation w req n resp).err with
    | none =>
      simp only []
      refine ⟨n, le_refl _, by omega, ?_, hres.1, ?_, ?_, Or.inl ?_⟩
      · simp [httpclient.Run.attempts, httpclient.operation_attempts]; omega
      · rw [herr]; rw [← hres.2, herr]
      · intro j h1 h2; omega
      · rw [← hres.2, herr]
    | some e =>
      simp only []
      cases hnext : backoff.exponentialNext c.maxWaitTime (w.elapsed n) (w.interval n) with
      | none =>
        simp only []
        refine ⟨n, le_refl _, by omega, ?_, hres.1, ?_, ?_, Or.inr (Or.inr hnext)⟩
        · simp [httpclient.Run.attempts, httpclient.operation_attempts]; omega
        · rw [herr]; rw [← hres.2, herr]
        · intro j h1 h2; omega
      | some d =>
        simp only []
        obtain ⟨m, hm1, hm2, hatt, hresp, herr', hbefore, hlast⟩ :=
          ih (n + 1) (httpclient.operation w req n resp).resp
        refine ⟨m, by omega, by omega, ?_, hresp, herr', ?_, ?_⟩
        · simp only [httpclient.Run.attempts, httpclient.countAttempts_append,
            httpclient.countAttempts, httpclient.operation_attempts] at hatt ⊢
          omega
        · intro j h1 h2
          by_cases hj : j = n
          · subst hj
            refine ⟨?_, ?_⟩
            · rw [← hres.2, herr]; simp
            · rw [hnext]; simp
          · exact hbefore j (by omega) h2
        · rcases hlast with h | h | h
          · exact Or.inl h
          · exact Or.inr (Or.inl (by omega))
          · exact Or.inr (Or.inr h)

/-- The conversion `uint64` keeps a value of the range of `int` that is not negative. -/
theorem httpclient.uint64_of_nonneg (x : Int) (h0 : 0 ≤ x) (h1 : x < 2 ^ 63) :
    (httpclient.uint64 x : Int) = x := by
  unfold httpclient.uint64
  have h2 : x % 2 ^ 64 = x := Int.emod_eq_of_lt h0 (by omega)
  rw [h2, Int.toNat_of_nonneg h0]

/-- The results of `Do` from those of the retry loop. -/
theorem httpclient.Do_of_retry (c : httpclient.HTTPClient) (w : httpclient.World)
    (ctx : context.Context) (req : http.Request) :
    (c.Do w ctx req).attempts =
      (httpclient.retry c w req (httpclient.uint64 c.maxRetries) 0 none).attempts ∧
    (c.Do w ctx req).err =
      (httpclient.retry c w req (httpclient.uint64 c.maxRetries) 0 none).err ∧
    (c.Do w ctx req).resp =
      (if (httpclient.retry c w req (httpclient.uint64 c.maxRetries) 0 none).err = none then
        (httpclient.retry c w req (httpclient.uint64 c.maxRetries) 0 none).resp
      else none) := by
  unfold httpclient.HTTPClient.Do
  simp only []
  cases h : (httpclient.retry c w req (httpclient.uint64 c.maxRetries) 0 none).err with
  | none => simp [httpclient.Run.attempts]
  | some e =>
    simp [httpclient.Run.attempts, httpclient.countAttempts_append,
      httpclient.countAttempts_closeBody]

/-- The error that `operation` returns for a response. -/
theorem httpclient.operation_err_of_response (w : httpclient.World) (req : http.Request)
    (n : Nat) (r : http.Response) (h : w.transport n req = .ok r) :
    (httpclient.operation w req n none).resp = some r ∧
    (httpclient.operation w req n none).err =
      if 500 ≤ r.StatusCode then
        some (Error.errorf "server error: status code %d" [str (Nat.repr r.StatusCode)])
      else none := by
  unfold httpclient.operation
  simp only [h]
  split <;> rename_i hs
  · have : 500 ≤ r.StatusCode := hs
    simp [this]
  · have : ¬ 500 ≤ r.StatusCode := hs
    simp [this]

/-- The error that `operation` returns for a transport error. -/
theorem httpclient.operation_err_of_error (w : httpclient.World) (req : http.Request)
    (n : Nat) (e : Error) (h : w.transport n req = .error e) :
    (httpclient.operation w req n none).resp = none ∧
    (httpclient.operation w req n none).err = some e := by
  simp [httpclient.operation, h]

/-- The exponential backoff stops exactly when its budget is not zero and is exceeded. -/
theorem backoff.exponentialNext_eq_none (maxElapsedTime elapsed next : Int) :
    backoff.exponentialNext maxElapsedTime elapsed next = none ↔
      (maxElapsedTime ≠ 0 ∧ elapsed + next > maxElapsedTime) := by
  unfold backoff.exponentialNext
  split <;> simp_all

/-- C11 fails when attempts are slow: the client of `cactus.NewClient` (three
retries, a budget of one minute) against a server that always answers 500,
each time after 29.8 seconds, makes 2 attempts, not 4: at the second failure
the elapsed time and the next interval exceed the budget and the backoff
stops. -/
theorem httpclient.all_500_stops_on_budget :
    (0 : Int) ≤ httpclient.sampleClient.maxRetries ∧
    httpclient.sampleClient.maxRetries + 1 = 4 ∧
    (∀ n, ∃ resp, httpclient.slowFailingWorld.transport n httpclient.sampleRequest = .ok resp ∧
      resp.StatusCode = 500) ∧
    (httpclient.sampleClient.Do httpclient.slowFailingWorld context.Background
      httpclient.sampleRequest).attempts = 2 :=
  ⟨by decide, by decide, fun _ => ⟨_, rfl, rfl⟩, by decide⟩

/-- C11, amended: when every physical attempt returns a response with status
500 and `maxRetries` is not negative, `Do` fails with a nil response and the
server error of its last attempt, after at least one and at most
`maxRetries + 1` attempts; it makes exactly `maxRetries + 1` attempts when the
elapsed-time budget does not stop the backoff at any of the first
`maxRetries` failures (the budget is zero, or the elapsed time plus the next
interval stays within it).  Otherwise it stops earlier: when the budget is
exceeded at the failure of attempt number `n` (from 0, `n < maxRetries`), `Do`
makes at most `n + 1` attempts, fewer than `maxRetries + 1`, and exactly
`n + 1` when that is the first failure at which the budget is exceeded. -/
theorem httpclient.Do_all_500 (c : httpclient.HTTPClient) (w : httpclient.World)
    (ctx : context.Context) (req : http.Request)
    (hmax : 0 ≤ c.maxRetries) (hint : c.maxRetries < 2 ^ 63)
    (h500 : ∀ n, ∃ resp, w.transport n req = .ok resp ∧ resp.StatusCode = 500) :
    (c.Do w ctx req).resp = none ∧
    (c.Do w ctx req).err = some (Error.errorf "server error: status code %d" [str "500"]) ∧
    (∃ resp, w.transport ((c.Do w ctx req).attempts - 1) req = .ok resp ∧
      (c.Do w ctx req).err =
        some (Error.errorf "server error: status code %d" [str (Nat.repr resp.StatusCode)])) ∧
    1 ≤ (c.Do w ctx req).attempts ∧
    ((c.Do w ctx req).attempts : Int) ≤ c.maxRetries + 1 ∧
    ((∀ n : Nat, (n : Int) < c.maxRetries →
        c.maxWaitTime = 0 ∨ w.elapsed n + w.interval n ≤ c.maxWaitTime) →
      ((c.Do w ctx req).attempts : Int) = c.maxRetries + 1) ∧
    (∀ n : Nat, (n : Int) < c.maxRetries →
        (c.maxWaitTime ≠ 0 ∧ w.elapsed n + w.interval n > c.maxWaitTime) →
      (c.Do w ctx req).attempts ≤ n + 1 ∧
      ((c.Do w ctx req).attempts : Int) < c.maxRetries + 1) ∧
    (∀ n : Nat, (n : Int) < c.maxRetries →
        (c.maxWaitTime ≠ 0 ∧ w.elapsed n + w.interval n > c.maxWaitTime) →
        (∀ j : Nat, j < n →
          c.maxWaitTime = 0 ∨ w.elapsed j + w.interval j ≤ c.maxWaitTime) →
      (c.Do w ctx req).attempts = n + 1) := by
  have hop : ∀ n, (httpclient.operation w req n none).err =
      some (Error.errorf "server error: status code %d" [str "500"]) := by
    intro n
    obtain ⟨r, hr, hs⟩ := h500 n
    rw [(httpclient.operation_err_of_response w req n r hr).2, hs]
    rfl
  obtain ⟨hatt, herr, hresp⟩ := httpclient.Do_of_retry c w ctx req
  obtain ⟨m, _, hm2, hcount, _, herr', hbefore, hlast⟩ :=
    httpclient.retry_spec c w req (httpclient.uint64 c.maxRetries) 0 none
  have hu := httpclient.uint64_of_nonneg c.maxRetries hmax hint
  rw [hop m] at herr'
  have herrDo : (c.Do w ctx req).err =
      some (Error.errorf "server error: status code %d" [str "500"]) := by rw [herr, herr']
  have hattm : (c.Do w ctx req).attempts = m + 1 := by rw [hatt]; omega
  -- the loop does not get past a failure at which the budget is exceeded
  have hstop : ∀ n : Nat,
      (c.maxWaitTime ≠ 0 ∧ w.elapsed n + w.interval n > c.maxWaitTime) → m ≤ n := by
    intro n hn
    by_contra hlt
    have hnm : n < m := by omega
    exact (hbefore n (Nat.zero_le _) hnm).2
      ((backoff.exponentialNext_eq_none _ _ _).mpr hn)
  refine ⟨?_, herrDo, ?_, by omega, by omega, ?_, ?_, ?_⟩
  · rw [hresp, herr']; simp
  · obtain ⟨r, hr, hs⟩ := h500 m
    refine ⟨r, ?_, ?_⟩
    · rw [hattm]; exact hr
    · rw [herrDo, hs]; rfl
  · intro hbudget
    rcases hlast with h | h | h
    · rw [hop m] at h; cases h
    · omega
    · by_cases hml : (m : Int) < c.maxRetries
      · rw [backoff.exponentialNext_eq_none] at h
        rcases hbudget m hml with h0 | h0
        · exact absurd h0 h.1
        · omega
      · omega
  · intro n hn hexceeded
    have hmn := hstop n hexceeded
    exact ⟨by omega, by omega⟩
  · intro n hn hexceeded hfirst
    have hmn := hstop n hexceeded
    have hnm : n ≤ m := by
      by_contra hlt
      have hlt' : m < n := by omega
      rcases hlast with h | h | h
      · rw [hop m] at h; cases h
      · omega
      · rw [backoff.exponentialNext_eq_none] at h
        rcases hfirst m hlt' with h0 | h0
        · exact h.1 h0
        · omega
    omega

/-- C11, amended, with three retries and a budget of one minute: a fast server
that always answers 500 is asked four times; a server that answers 500 after
29.8 seconds each time is asked twice, the budget being exceeded for the
first time at the failure of attempt number 1. -/
theorem httpclient.Do_all_500_witness :
    (0 : Int) ≤ httpclient.sampleClient.maxRetries ∧
    (∀ n, ∃ resp, httpclient.failingWorld.transport n httpclient.sampleRequest = .ok resp ∧
      resp.StatusCode = 500) ∧
    (httpclient.sampleClient.Do httpclient.failingWorld context.Background
      httpclient.sampleRequest).resp = none ∧
    ((httpclient.sampleClient.Do httpclient.failingWorld context.Background
      httpclient.sampleRequest).attempts : Int) = 4 ∧
    (∀ n, ∃ resp, httpclient.slowFailingWorld.transport n httpclient.sampleRequest = .ok resp ∧
      resp.StatusCode = 500) ∧
    (httpclient.sampleClient.maxWaitTime ≠ 0 ∧
      httpclient.slowFailingWorld.elapsed 1 + httpclient.slowFailingWorld.interval 1 >
        httpclient.sampleClient.maxWaitTime) ∧
    (httpclient.sampleClient.Do httpclient.slowFailingWorld context.Background
      httpclient.sampleRequest).attempts = 1 + 1 := by
  have h500 : ∀ n, ∃ resp,
      httpclient.failingWorld.transport n httpclient.sampleRequest = .ok resp ∧
      resp.StatusCode = 500 := fun _ => ⟨_, rfl, rfl⟩
  have h := httpclient.Do_all_500 httpclient.sampleClient httpclient.failingWorld
    context.Background httpclient.sampleRequest (by decide) (by decide) h500
  have hslow500 : ∀ n, ∃ resp,
      httpclient.slowFailingWorld.transport n httpclient.sampleRequest = .ok resp ∧
      resp.StatusCode = 500 := fun _ => ⟨_, rfl, rfl⟩
  have hslow := httpclient.Do_all_500 httpclient.sampleClient httpclient.slowFailingWorld
    context.Background httpclient.sampleRequest (by decide) (by decide) hslow500
  have hexceeded : httpclient.sampleClient.maxWaitTime ≠ 0 ∧
      httpclient.slowFailingWorld.elapsed 1 + httpclient.slowFailingWorld.interval 1 >
        httpclient.sampleClient.maxWaitTime := by decide
  refine ⟨by decide, h500, h.1, ?_, hslow500, hexceeded, ?_⟩
  · apply h.2.2.2.2.2.1
    intro n hn
    right
    have hn' : n < 3 := by
      have : (n : Int) < 3 := hn
      omega
    show (10000000 * ((n : Int) + 1) + 500000000 * n) + 500000000 ≤ 60000000000
    omega
  · apply hslow.2.2.2.2.2.2.2 1 (by decide) hexceeded
    intro j hj
    right
    have hj0 : j = 0 := by omega
    subst hj0
    decide

/-- C12 fails when attempts are slow: with three retries and a budget of one
minute, a server that answers 500, 500, 200, each time after 29.8 seconds, is
asked twice only; the backoff stops at the second failure and `Do` fails
with the server error, although the third attempt would succeed. -/
theorem httpclient.success_missed_on_budget :
    (2 : Int) ≤ httpclient.sampleClient.maxRetries ∧
    (∀ n, n < 2 → ∃ r, httpclient.slowWorld.transport n httpclient.sampleRequest = .ok r ∧
      500 ≤ r.StatusCode) ∧
    httpclient.slowWorld.transport 2 httpclient.sampleRequest = .ok ⟨200, str "ok", none⟩ ∧
    (httpclient.sampleClient.Do httpclient.slowWorld context.Background
      httpclient.sampleRequest).attempts = 2 ∧
    (httpclient.sampleClient.Do httpclient.slowWorld context.Background
      httpclient.sampleRequest).resp = none ∧
    (httpclient.sampleClient.Do httpclient.slowWorld context.Background
      httpclient.sampleRequest).err =
        some (Error.errorf "server error: status code %d" [str "500"]) := by
  refine ⟨by decide, ?_, rfl, by decide, by decide, by decide⟩
  intro n hn
  refine ⟨⟨500, [], none⟩, ?_, by decide⟩
  show (if n < 2 then _ else _) = _
  rw [if_pos hn]

/-- C12, amended: when the first `k` physical attempts end in a retryable
outcome (a response with status 500 or more, or a transport error), the
attempt after them returns a response with a status below 500, `k` is at most
`maxRetries`, and the elapsed-time budget does not stop the backoff at any of
these `k` failures, `Do` makes exactly `k + 1` attempts and returns that
response with a nil error. -/
theorem httpclient.Do_succeeds_after_failures (c : httpclient.HTTPClient)
    (w : httpclient.World) (ctx : context.Context) (req : http.Request) (k : Nat)
    (resp : http.Response)
    (hmax : 0 ≤ c.maxRetries) (hint : c.maxRetries < 2 ^ 63) (hk : (k : Int) ≤ c.maxRetries)
    (hfail : ∀ n, n < k →
      (∃ r, w.transport n req = .ok r ∧ 500 ≤ r.StatusCode) ∨
      (∃ e, w.transport n req = .error e))
    (hok : w.transport k req = .ok resp) (hstatus : resp.StatusCode < 500)
    (hbudget : ∀ n, n < k →
      c.maxWaitTime = 0 ∨ w.elapsed n + w.interval n ≤ c.maxWaitTime) :
    (c.Do w ctx req).attempts = k + 1 ∧
    (c.Do w ctx req).resp = some resp ∧
    (c.Do w ctx req).err = none := by
  have hopfail : ∀ n, n < k → (httpclient.operation w req n none).err ≠ none := by
    intro n hn
    rcases hfail n hn with ⟨r, hr, hs⟩ | ⟨e, he⟩
    · rw [(httpclient.operation_err_of_response w req n r hr).2, if_pos hs]; simp
    · rw [(httpclient.operation_err_of_error w req n e he).2]; simp
  have hopok := httpclient.operation_err_of_response w req k resp hok
  have hnot : ¬ 500 ≤ resp.StatusCode := by omega
  rw [if_neg hnot] at hopok
  obtain ⟨hatt, herr, hresp⟩ := httpclient.Do_of_retry c w ctx req
  obtain ⟨m, _, hm2, hcount, hresp', herr', hbefore, hlast⟩ :=
    httpclient.retry_spec c w req (httpclient.uint64 c.maxRetries) 0 none
  have hu := httpclient.uint64_of_nonneg c.maxRetries hmax hint
  have hmk : m = k := by
    rcases Nat.lt_trichotomy m k with h | h | h
    · exfalso
      rcases hlast with h1 | h1 | h1
      · exact hopfail m h h1
      · omega
      · rw [backoff.exponentialNext_eq_none] at h1
        rcases hbudget m h with h0 | h0
        · exact h1.1 h0
        · omega
    · exact h
    · exact absurd hopok.2 (hbefore k (Nat.zero_le _) h).1
  subst hmk
  rw [hopok.1] at hresp'
  rw [hopok.2] at herr'
  refine ⟨by rw [hatt]; omega, ?_, by rw [herr, herr']⟩
  rw [hresp, herr', hresp']
  simp

/-- C12, amended, on the example of the claim: three retries, the statuses 500,
500, 200 from a fast server: three attempts and the response 200. -/
theorem httpclient.Do_succeeds_after_failures_witness :
    (2 : Int) ≤ httpclient.sampleClient.maxRetries ∧
    httpclient.sampleWorld.transport 2 httpclient.sampleRequest = .ok ⟨200, str "ok", none⟩ ∧
    (httpclient.sampleClient.Do httpclient.sampleWorld context.Background
      httpclient.sampleRequest).attempts = 3 ∧
    (httpclient.sampleClient.Do httpclient.sampleWorld context.Background
      httpclient.sampleRequest).resp = some ⟨200, str "ok", none⟩ ∧
    (httpclient.sampleClient.Do httpclient.sampleWorld context.Background
      httpclient.sampleRequest).err = none := by
  have h := httpclient.Do_succeeds_after_failures httpclient.sampleClient
    httpclient.sampleWorld context.Background httpclient.sampleRequest 2 ⟨200, str "ok", none⟩
    (by decide) (by decide) (by decide)
    (fun n hn => Or.inl ⟨⟨500, [], none⟩, by
      show (if n < 2 then _ else _) = _
      rw [if_pos hn], by decide⟩)
    rfl (by decide)
    (fun n hn => Or.inr (by
      show (10000000 * ((n : Int) + 1) + 500000000 * n) + 500000000 ≤ 60000000000
      omega))
  exact ⟨by decide, rfl, h.1, h.2.1, h.2.2⟩

/-- C13: whatever the retry configuration, when the first physical attempt
returns a response with a status below 500, `Do` makes that one attempt, with
no wait and no retry, and returns the response with a nil error.  The closure
`operation` reports an error for a response exactly when its status is 500 or
more. -/
theorem httpclient.Do_no_retry_below_500 (c : httpclient.HTTPClient) (w : httpclient.World)
    (ctx : context.Context) (req : http.Request) (resp : http.Response)
    (hok : w.transport 0 req = .ok resp) (hstatus : resp.StatusCode < 500) :
    c.Do w ctx req =
      { events := [httpclient.Event.attempt 0 req], resp := some resp, err := none } ∧
    (c.Do w ctx req).attempts = 1 ∧
    (∀ (n : Nat) (r : http.Response), w.transport n req = .ok r →
      ((httpclient.operation w req n none).err ≠ none ↔ 500 ≤ r.StatusCode)) := by
  have hnot : ¬ resp.StatusCode ≥ http.StatusInternalServerError := by
    show ¬ 500 ≤ resp.StatusCode
    omega
  have hop : httpclient.operation w req 0 none =
      { events := [httpclient.Event.attempt 0 req], resp := some resp, err := none } := by
    simp [httpclient.operation, hok, hnot, httpclient.closeBody]
  have hretry : ∀ left, httpclient.retry c w req left 0 none =
      { events := [httpclient.Event.attempt 0 req], resp := some resp, err := none } := by
    intro left
    cases left with
    | zero => simp [httpclient.retry, hop]
    | succ left => simp [httpclient.retry, hop]
  have hdo : c.Do w ctx req =
      { events := [httpclient.Event.attempt 0 req], resp := some resp, err := none } := by
    simp [httpclient.HTTPClient.Do, hretry]
  refine ⟨hdo, by rw [hdo]; rfl, ?_⟩
  intro n r hr
  rw [(httpclient.operation_err_of_response w req n r hr).2]
  by_cases h : 500 ≤ r.StatusCode
  · simp [h]
  · simp [h]

/-- C13, on a server that answers 404: one attempt, the response 404, no error. -/
theorem httpclient.Do_no_retry_below_500_witness :
    httpclient.notFoundWorld.transport 0 httpclient.sampleRequest =
      .ok ⟨404, str "not found", none⟩ ∧
    httpclient.sampleClient.Do httpclient.notFoundWorld context.Background
        httpclient.sampleRequest =
      { events := [httpclient.Event.attempt 0 httpclient.sampleRequest],
        resp := some ⟨404, str "not found", none⟩, err := none } :=
  ⟨rfl, (httpclient.Do_no_retry_below_500 httpclient.sampleClient httpclient.notFoundWorld
    context.Background httpclient.sampleRequest ⟨404, str "not found", none⟩ rfl
    (by decide)).1⟩

/-- C14 fails on the code: `Do` never reads its `ctx`, so its run is the same
for every context, and with a context cancelled before the call (or during
the first wait) the client still makes three attempts, waits twice, and
returns the response 200 with a nil error. -/
theorem httpclient.Do_ignores_cancellation :
    (∀ (c : httpclient.HTTPClient) (w : httpclient.World) (ctx ctx' : context.Context)
      (req : http.Request), c.Do w ctx req = c.Do w ctx' req) ∧
    httpclient.sampleClient.Do httpclient.sampleWorld ⟨some 0⟩ httpclient.sampleRequest =
      { events :=
          [httpclient.Event.attempt 0 httpclient.sampleRequest,
           httpclient.Event.wait 500000000,
           httpclient.Event.closed ⟨500, [], none⟩,
           httpclient.Event.attempt 1 httpclient.sampleRequest,
           httpclient.Event.wait 500000000,
           httpclient.Event.closed ⟨500, [], none⟩,
           httpclient.Event.attempt 2 httpclient.sampleRequest],
        resp := some ⟨200, str "ok", none⟩, err := none } ∧
    httpclient.sampleClient.Do httpclient.sampleWorld ⟨some 1⟩ httpclient.sampleRequest =
      httpclient.sampleClient.Do httpclient.sampleWorld ⟨some 0⟩ httpclient.sampleRequest :=
  ⟨fun _ _ _ _ _ => rfl, by decide, rfl⟩

set_option maxRecDepth 100000 in
/-- C14 on `buildRequest`: with a context cancelled before the call, the
request is sent, the client behind it makes three attempts, and `buildRequest`
returns the body of the response 200 with a nil error, not a cancellation
error. -/
theorem cactus.buildRequest_ignores_cancellation :
    cactus.ClientImpl.buildRequest cactus.sampleConfig cactus.sampleClient
        (cactus.clientEnv httpclient.sampleClient httpclient.sampleWorld ⟨some 0⟩)
        (str "POST") (str "/p?b=1&a=2") (some []) =
      { events :=
          [cactus.Event.signed (str "POST\napplication/json\n47DEQpj8HBSa+/TImW+5JCeuQeRkm5NMpJWZG3hSuFU=\napplication/json\nTue, 03 Mar 2020 12:26:57 GMT\nx-api-key:KEY\nx-api-nonce:n1\n/p?\x7ba=[2], b=[1]\x7d"),
           cactus.Event.sent cactus.sampleRequest],
        outcome := .returned (some (str "ok")) none } ∧
    (httpclient.sampleClient.Do httpclient.sampleWorld ⟨some 0⟩ cactus.sampleRequest).attempts
      = 3 := by
  decide

/-! ## Signing -/

/-- When `buildRequest` has sent a request, what it returns is what the client
and the reading of the response body give. -/
theorem cactus.buildRequest_outcome_of_sent (cfg : model.Config) (c : cactus.ClientImpl)
    (env : cactus.Env) (method uri : GoString) (body : Option GoString) (req : http.Request)
    (hsent : cactus.Event.sent req ∈
      (cactus.ClientImpl.buildRequest cfg c env method uri body).events) :
    (cactus.ClientImpl.buildRequest cfg c env method uri body).outcome =
      cactus.outcomeOf (env.Do req) := by
  unfold cactus.ClientImpl.buildRequest at hsent ⊢
  simp only [] at hsent ⊢
  split at hsent
  · simp at hsent
  · rename_i signContent hb
    split at hsent
    · simp at hsent
    · rename_i sign hs
      split at hsent
      · simp at hsent
      · rename_i r0 hr
        split at hsent
        · rename_i err hdo
          simp at hsent
          subst hsent
          simp only [hdo, cactus.outcomeOf]
        · rename_i resp hdo
          split at hsent
          · rename_i err hread
            simp at hsent
            subst hsent
            simp only [hdo, hread, cactus.outcomeOf]
          · rename_i hread
            simp at hsent
            subst hsent
            simp only [hdo, hread, cactus.outcomeOf]

/-- Once the canonical string is built, signed and the request created,
`buildRequest` sends a request. -/
theorem cactus.buildRequest_sends (cfg : model.Config) (c : cactus.ClientImpl)
    (env : cactus.Env) (method uri content sign : GoString) (body : Option GoString)
    (r0 : http.Request)
    (hcontent : cactus.buildContentToSign cfg method uri env.date env.nonce body =
      (content, none))
    (hsign : c.Sign env content = some sign)
    (hreq : http.NewRequest method (c.baseURL ++ uri) body = .ok r0) :
    ∃ req, cactus.Event.sent req ∈
      (cactus.ClientImpl.buildRequest cfg c env method uri body).events := by
  unfold cactus.ClientImpl.buildRequest
  simp only [hcontent, hsign, hreq]
  split
  · exact ⟨_, List.mem_cons_of_mem _ (List.mem_cons_self _ _)⟩
  · split <;> exact ⟨_, List.mem_cons_of_mem _ (List.mem_cons_self _ _)⟩

/-- The signature text after an error of the signing primitive: empty. -/
theorem cactus.Sign_of_error (c : cactus.ClientImpl) (env : cactus.Env) (key : cactus.PrivateKey)
    (content : GoString) (e : Error) (hkey : c.privateKey = some key)
    (hsign : env.ecdsaSign key (sha256.Sum256 content) = .error e) :
    c.Sign env content = some (str "") := by
  unfold cactus.ClientImpl.Sign
  simp only [hkey, hsign]
  rfl

set_option maxRecDepth 100000 in
/-- C15 fails when the signing primitive reports an error: the error is
dropped, the request is sent with the `Authorization` value `api ak:` (an
empty signature), and `buildRequest` returns the body of the response with a
nil error. -/
theorem cactus.signing_error_is_dropped :
    (∀ key hash, cactus.brokenSignerEnv.ecdsaSign key hash =
      .error (Error.new "ecdsa: signing failed")) ∧
    cactus.ClientImpl.buildRequest cactus.sampleConfig cactus.sampleClient
        cactus.brokenSignerEnv (str "POST") (str "/p?b=1&a=2") (some []) =
      { events :=
          [cactus.Event.signed (str "POST\napplication/json\n47DEQpj8HBSa+/TImW+5JCeuQeRkm5NMpJWZG3hSuFU=\napplication/json\nTue, 03 Mar 2020 12:26:57 GMT\nx-api-key:KEY\nx-api-nonce:n1\n/p?\x7ba=[2], b=[1]\x7d"),
           cactus.Event.sent cactus.unsignedRequest],
        outcome := .returned (some (str "ok")) none } ∧
    cactus.unsignedRequest.Header.Get (str "Authorization") = str "api ak:" := by
  refine ⟨fun _ _ => rfl, by decide, by decide⟩

/-- C15, amended: no signing error is ever returned by `buildRequest`.  With a
nil key the call ends inside `Sign`, after the canonical string is built:
no request is created and none is sent.  When the signing primitive reports
an error, `Sign` returns the empty string; if the request can be created it is
sent with the `Authorization` value `api ` + key identifier + `:`, and
`buildRequest` returns what the client and the reading of the body give. -/
theorem cactus.buildRequest_signing_failure (cfg : model.Config) (c : cactus.ClientImpl)
    (env : cactus.Env) (method uri content : GoString) (body : Option GoString)
    (hcontent : cactus.buildContentToSign cfg method uri env.date env.nonce body =
      (content, none)) :
    (c.privateKey = none →
      cactus.ClientImpl.buildRequest cfg c env method uri body =
        { events := [cactus.Event.signed content], outcome := .panicked }) ∧
    (∀ (key : cactus.PrivateKey) (e : Error), c.privateKey = some key →
      env.ecdsaSign key (sha256.Sum256 content) = .error e →
      c.Sign env content = some (str "") ∧
      (∀ r0, http.NewRequest method (c.baseURL ++ uri) body = .ok r0 →
        ∃ req, cactus.Event.sent req ∈
          (cactus.ClientImpl.buildRequest cfg c env method uri body).events) ∧
      (∀ req, cactus.Event.sent req ∈
          (cactus.ClientImpl.buildRequest cfg c env method uri body).events →
        req.Header.Get (str "Authorization") = str "api " ++ cfg.AK_ID ++ str ":" ∧
        (cactus.ClientImpl.buildRequest cfg c env method uri body).outcome =
          cactus.outcomeOf (env.Do req))) := by
  constructor
  · intro hkey
    have hs : c.Sign env content = none := by
      unfold cactus.ClientImpl.Sign
      simp only [hkey]
    unfold cactus.ClientImpl.buildRequest
    simp only [hcontent, hs]
  · intro key e hkey hsign
    have hs := cactus.Sign_of_error c env key content e hkey hsign
    refine ⟨hs, fun r0 hr0 =>
      cactus.buildRequest_sends cfg c env method uri content _ body r0 hcontent hs hr0, ?_⟩
    intro req hsent
    refine ⟨?_, cactus.buildRequest_outcome_of_sent cfg c env method uri body req hsent⟩
    obtain ⟨signContent, sign, hb, hsign', _, _, hheader⟩ :=
      cactus.buildRequest_sent cfg c env method uri body req hsent
    rw [hcontent] at hb
    have hc : content = signContent := congrArg Prod.fst hb
    subst hc
    rw [hs] at hsign'
    have hsg : sign = str "" := (Option.some.inj hsign').symm
    subst hsg
    rw [hheader, (cactus.requestHeaders_get cfg method env.nonce env.date _ body).2.2.2]
    unfold cactus.buildAuthorization
    simp [str, strChars]

set_option maxRecDepth 100000 in
/-- C15, amended, on a nil key: the canonical string is built and handed to
`Sign`, and the call ends there. -/
theorem cactus.buildRequest_signing_failure_witness :
    cactus.buildContentToSign cactus.sampleConfig (str "POST") (str "/p?b=1&a=2")
        cactus.sampleEnv.date cactus.sampleEnv.nonce (some []) =
      (str "POST\napplication/json\n47DEQpj8HBSa+/TImW+5JCeuQeRkm5NMpJWZG3hSuFU=\napplication/json\nTue, 03 Mar 2020 12:26:57 GMT\nx-api-key:KEY\nx-api-nonce:n1\n/p?\x7ba=[2], b=[1]\x7d",
        none) ∧
    cactus.ClientImpl.buildRequest cactus.sampleConfig cactus.keylessClient cactus.sampleEnv
        (str "POST") (str "/p?b=1&a=2") (some []) =
      { events := [cactus.Event.signed (str "POST\napplication/json\n47DEQpj8HBSa+/TImW+5JCeuQeRkm5NMpJWZG3hSuFU=\napplication/json\nTue, 03 Mar 2020 12:26:57 GMT\nx-api-key:KEY\nx-api-nonce:n1\n/p?\x7ba=[2], b=[1]\x7d")],
        outcome := .panicked } := by
  have hc : cactus.buildContentToSign cactus.sampleConfig (str "POST") (str "/p?b=1&a=2")
      cactus.sampleEnv.date cactus.sampleEnv.nonce (some []) =
      (str "POST\napplication/json\n47DEQpj8HBSa+/TImW+5JCeuQeRkm5NMpJWZG3hSuFU=\napplication/json\nTue, 03 Mar 2020 12:26:57 GMT\nx-api-key:KEY\nx-api-nonce:n1\n/p?\x7ba=[2], b=[1]\x7d",
        none) := by decide
  exact ⟨hc, (cactus.buildRequest_signing_failure cactus.sampleConfig cactus.keylessClient
    cactus.sampleEnv _ _ _ _ hc).1 rfl⟩

/-! ## The formatted URI is not injective -/

set_option maxRecDepth 100000 in
/-- C17: the URIs `/p?a=1,2` and `/p?a=1&a=2` parse to the same path and to
different query maps (one value `1,2`, or the two values `1` and `2`), and both
have the formatted URI `/p?{a=[1,2]}`; so they have the same canonical string
for every method, date, nonce and body. -/
theorem cactus.formatURIParameters_not_injective :
    url.Parse (str "/p?a=1,2") = .ok { Path := str "/p", RawQuery := str "a=1,2" } ∧
    url.Parse (str "/p?a=1&a=2") = .ok { Path := str "/p", RawQuery := str "a=1&a=2" } ∧
    url.URL.Query { Path := str "/p", RawQuery := str "a=1,2" } = [(str "a", [str "1,2"])] ∧
    url.URL.Query { Path := str "/p", RawQuery := str "a=1&a=2" } =
      [(str "a", [str "1", str "2"])] ∧
    url.URL.Query { Path := str "/p", RawQuery := str "a=1,2" } ≠
      url.URL.Query { Path := str "/p", RawQuery := str "a=1&a=2" } ∧
    cactus.formatURIParameters (str "/p?a=1,2") = (str "/p?\x7ba=[1,2]\x7d", none) ∧
    cactus.formatURIParameters (str "/p?a=1&a=2") = (str "/p?\x7ba=[1,2]\x7d", none) ∧
    ∀ (cfg : model.Config) (method date nonce : GoString) (body : Option GoString),
      cactus.buildContentToSign cfg method (str "/p?a=1,2") date nonce body =
        cactus.buildContentToSign cfg method (str "/p?a=1&a=2") date nonce body := by
  have h1 : cactus.formatURIParameters (str "/p?a=1,2") = (str "/p?\x7ba=[1,2]\x7d", none) := by
    decide
  have h2 : cactus.formatURIParameters (str "/p?a=1&a=2") = (str "/p?\x7ba=[1,2]\x7d", none) := by
    decide
  exact ⟨by decide, by decide, by decide, by decide, by decide, h1, h2,
    fun cfg method date nonce body =>
      cactus.buildContentToSign_congr _ _ (h1.trans h2.symm) cfg method date nonce body⟩

/-! ## The signature text -/

theorem asn1.beValue_bigBytesAux :
    ∀ (fuel n : Nat) (acc : List Nat), n ≤ fuel →
      asn1.beValue (asn1.bigBytesAux fuel n acc) = n * 256 ^ acc.length + asn1.beValue acc := by
  intro fuel
  induction fuel with
  | zero =>
    intro n acc h
    have h0 : n = 0 := by omega
    subst h0
    simp [asn1.bigBytesAux]
  | succ fuel ih =>
    intro n acc h
    unfold asn1.bigBytesAux
    by_cases h0 : n = 0
    · subst h0; simp
    · rw [if_neg h0]
      have hlt : n / 256 < n := Nat.div_lt_self (by omega) (by decide)
      rw [ih (n / 256) (n % 256 :: acc) (by omega)]
      simp only [asn1.beValue, List.length_cons, pow_succ]
      conv_rhs => rw [← Nat.div_add_mod n 256]
      ring

/-- The bytes of a number write that number. -/
theorem asn1.beValue_bigBytes (n : Nat) : asn1.beValue (asn1.bigBytes n) = n := by
  unfold asn1.bigBytes
  rw [asn1.beValue_bigBytesAux n n [] (le_refl _)]
  simp [asn1.beValue]

/-- The content octets of the INTEGER of a number write that number. -/
theorem asn1.beValue_integerContent (n : Nat) : asn1.beValue (asn1.integerContent n) = n := by
  unfold asn1.integerContent
  split
  · rename_i h; subst h; rfl
  · split
    · simp [asn1.beValue, asn1.beValue_bigBytes]
    · exact asn1.beValue_bigBytes n

/-- Marshalling a pair of numbers gives the DER SEQUENCE of their INTEGERs. -/
theorem asn1.Marshal_some (r s : Nat) :
    asn1.Marshal (some r) (some s) = some (asn1.sequence r s) := rfl

/-- The DER encoding of the pair `(200, 3)`: `30 07 02 02 00 c8 02 01 03`. -/
theorem asn1.sequence_example :
    asn1.sequence 200 3 = [0x30, 0x07, 0x02, 0x02, 0x00, 0xc8, 0x02, 0x01, 0x03] := by
  decide

/-- The text that `Sign` returns with a key, when `ecdsa.Sign` returns the pair
`(r, s)` for the SHA-256 hash of the text signed: the base64 text of the DER
SEQUENCE of the two INTEGERs `r`, `s`, in that order, whose content octets
write `r` and `s`. -/
theorem cactus.Sign_encoding (c : cactus.ClientImpl) (env : cactus.Env)
    (key : cactus.PrivateKey) (content : GoString) (r s : Nat)
    (hkey : c.privateKey = some key)
    (hsign : env.ecdsaSign key (sha256.Sum256 content) = .ok (r, s)) :
    c.Sign env content = some (base64.EncodeToString (asn1.sequence r s)) ∧
    asn1.sequence r s =
      0x30 :: asn1.lengthOctets (asn1.integer r ++ asn1.integer s).length ++
        (asn1.integer r ++ asn1.integer s) ∧
    asn1.integer r = 0x02 :: asn1.lengthOctets (asn1.integerContent r).length ++
      asn1.integerContent r ∧
    asn1.integer s = 0x02 :: asn1.lengthOctets (asn1.integerContent s).length ++
      asn1.integerContent s ∧
    asn1.beValue (asn1.integerContent r) = r ∧
    asn1.beValue (asn1.integerContent s) = s := by
  refine ⟨?_, rfl, rfl, rfl, asn1.beValue_integerContent r, asn1.beValue_integerContent s⟩
  unfold cactus.ClientImpl.Sign
  simp only [hkey, hsign, asn1.Marshal_some]
  rfl

set_option maxRecDepth 100000 in
/-- The signature text of the sample client in the sample environment, whose
signing primitive answers `(200, 3)`: `MAcCAgDIAgED`, the base64 text of
`30 07 02 02 00 c8 02 01 03`. -/
theorem cactus.Sign_encoding_example :
    cactus.sampleClient.Sign cactus.sampleEnv (str "GET\n/p") = some (str "MAcCAgDIAgED") := by
  decide

end GoCactus
